import Mathlib

/-!
A shallow embedding of the PERT estimator core
(`src/tools/pert-estimator`): unit-aware time conversion, estimate
validation, the PERT calculation, the task factory, the project
aggregator, and the CSV/JSON serializers and deserializers.

Modelling conventions:
* JavaScript numbers are modelled as exact rationals (`ℚ`).
* A function that can `throw` is modelled as returning `Option` (or
  `Except` for per-row processing), with `none` / `.error` standing for
  the thrown exception.
* Platform primitives that the source calls are modelled explicitly:
  `Math.sqrt` and `crypto.randomUUID` become function parameters
  (`sqrt : ℚ → ℚ`, `genId : String`), `new Date()...` becomes a string
  parameter, and `JSON.parse` / `JSON.stringify` are modelled by working
  directly on an inductive JSON value type (`Json`), relying on the fact
  that stringify followed by parse is the identity on JSON values.
-/

namespace PertEstimator

/-- The `TimeUnit` union type from `pert-estimator.types.ts`. -/
inductive TimeUnit where
  | minutes
  | hours
  | days
  | weeks
deriving DecidableEq

/-- The `TimeValue` interface: a magnitude tagged with a unit. -/
structure TimeValue where
  value : ℚ
  unit : TimeUnit
deriving DecidableEq

/-- The `TaskEstimate` interface: three tagged magnitudes. -/
structure TaskEstimate where
  optimistic : TimeValue
  nominal : TimeValue
  pessimistic : TimeValue
deriving DecidableEq

/-- The `PertCalculationResult` interface. -/
structure PertCalculationResult where
  expectedDuration : ℚ
  standardDeviation : ℚ
  variance : ℚ
deriving DecidableEq

/-- The `Task` interface.  `name?: string` becomes `Option String`. -/
structure Task where
  id : String
  name : Option String
  estimate : TaskEstimate
  expectedDuration : ℚ
  standardDeviation : ℚ
  variance : ℚ
deriving DecidableEq

/-- The `ProjectSummary` interface. -/
structure ProjectSummary where
  totalExpectedDuration : ℚ
  totalStandardDeviation : ℚ
  totalVariance : ℚ
  tasks : List Task
deriving DecidableEq

/-- The `ImportResult` interface. -/
structure ImportResult where
  projectName : Option String
  tasks : List Task
  isValid : Bool
  errors : List String
deriving DecidableEq

/-- The `TIME_UNIT_TO_HOURS` record constant. -/
def TIME_UNIT_TO_HOURS : TimeUnit → ℚ
  | .minutes => 1 / 60
  | .hours => 1
  | .days => 8
  | .weeks => 40

/-- `convertToHours(timeValue)`. -/
def convertToHours (timeValue : TimeValue) : ℚ :=
  timeValue.value * TIME_UNIT_TO_HOURS timeValue.unit

/-- `convertFromHours(hours, targetUnit)`. -/
def convertFromHours (hours : ℚ) (targetUnit : TimeUnit) : ℚ :=
  hours / TIME_UNIT_TO_HOURS targetUnit

/-- `validateEstimate(estimate)`: the boolean three-point check.  The
source returns the conjunction directly and cannot throw, so the model
is a total `Bool`-valued function. -/
def validateEstimate (estimate : TaskEstimate) : Bool :=
  let optimisticHours := convertToHours estimate.optimistic
  let nominalHours := convertToHours estimate.nominal
  let pessimisticHours := convertToHours estimate.pessimistic
  decide (0 < optimisticHours) &&
  decide (0 < nominalHours) &&
  decide (0 < pessimisticHours) &&
  decide (optimisticHours ≤ nominalHours) &&
  decide (nominalHours ≤ pessimisticHours)

/-- `calculatePert(estimate)`.  The source throws
`Error('Invalid estimate: ...')` when the validator rejects; the throw
is modelled as `none`. -/
def calculatePert (estimate : TaskEstimate) : Option PertCalculationResult :=
  if validateEstimate estimate then
    let optimisticHours := convertToHours estimate.optimistic
    let nominalHours := convertToHours estimate.nominal
    let pessimisticHours := convertToHours estimate.pessimistic
    let expectedDuration := (optimisticHours + 4 * nominalHours + pessimisticHours) / 6
    let standardDeviation := (pessimisticHours - optimisticHours) / 6
    let variance := standardDeviation * standardDeviation
    some ⟨expectedDuration, standardDeviation, variance⟩
  else
    none

/-- `createTask(name, estimate, id?)`.  `crypto.randomUUID()` is
modelled by the explicit `genId` parameter; `id || crypto.randomUUID()`
treats both an absent id and the (falsy) empty string as "generate".
The exception thrown by the inner `calculatePert` call is modelled as
`none`. -/
def createTask (genId : String) (name : Option String) (estimate : TaskEstimate)
    (id : Option String) : Option Task :=
  (calculatePert estimate).map fun calculation =>
    { id := match id with
        | some s => if s = "" then genId else s
        | none => genId
      name := name
      estimate := estimate
      expectedDuration := calculation.expectedDuration
      standardDeviation := calculation.standardDeviation
      variance := calculation.variance }

/-- `calculateProjectSummary(tasks)`.  `Math.sqrt` is modelled by the
explicit `sqrt` parameter; `reduce((sum, t) => sum + f(t), 0)` is a
left fold from 0. -/
def calculateProjectSummary (sqrt : ℚ → ℚ) (tasks : List Task) : ProjectSummary :=
  if tasks.isEmpty then
    { totalExpectedDuration := 0
      totalStandardDeviation := 0
      totalVariance := 0
      tasks := [] }
  else
    let totalExpectedDuration := tasks.foldl (fun sum task => sum + task.expectedDuration) 0
    let totalVariance := tasks.foldl (fun sum task => sum + task.variance) 0
    let totalStandardDeviation := sqrt totalVariance
    { totalExpectedDuration := totalExpectedDuration
      totalStandardDeviation := totalStandardDeviation
      totalVariance := totalVariance
      tasks := tasks }

/-- The concrete estimate {optimistic: 2 hours, nominal: 4 hours,
pessimistic: 12 hours} from the spec's concrete scenario. -/
def exampleEstimate : TaskEstimate :=
  ⟨⟨2, .hours⟩, ⟨4, .hours⟩, ⟨12, .hours⟩⟩

/-- JSON values, i.e. what `JSON.parse` can return and `JSON.stringify`
can consume.  The importer and exporter are modelled directly on this
type: `JSON.stringify` followed by `JSON.parse` is the identity on JSON
values, so the text layer is dropped. -/
inductive Json where
  | null
  | bool (b : Bool)
  | num (q : ℚ)
  | str (s : String)
  | arr (items : List Json)
  | obj (fields : List (String × Json))

/-- Property lookup in an object's field list (first match, as produced
by `JSON.parse`, whose objects have unique keys). -/
def jsLookup : List (String × Json) → String → Option Json
  | [], _ => none
  | (k', v) :: fields, k => if k' = k then some v else jsLookup fields k

/-- JavaScript property access `j[k]`; `none` is `undefined`.  Property
access on a non-object primitive yields `undefined`; the importer only
dereferences values it has checked to be truthy, so the throwing cases
(`null`/`undefined` receivers) never reach this function. -/
def jsGet : Json → String → Option Json
  | .obj fields, k => jsLookup fields k
  | _, _ => none

/-- Chained property access on a possibly-undefined receiver. -/
def jsGetOpt (o : Option Json) (k : String) : Option Json :=
  o.bind fun j => jsGet j k

/-- JavaScript truthiness of a possibly-undefined value. -/
def truthy : Option Json → Bool
  | none => false
  | some .null => false
  | some (.bool b) => b
  | some (.num q) => decide (q ≠ 0)
  | some (.str s) => decide (s ≠ "")
  | some (.arr _) => true
  | some (.obj _) => true

/-- JavaScript `typeof x === 'object'` (true for objects, arrays and
`null`). -/
def isObjectType : Json → Bool
  | .null => true
  | .arr _ => true
  | .obj _ => true
  | _ => false

/-- `Array.isArray`. -/
def isArray : Json → Bool
  | .arr _ => true
  | _ => false

/-- `typeof x === 'number'` on a possibly-undefined value. -/
def isNumType : Option Json → Bool
  | some (.num _) => true
  | _ => false

/-- The closed unit enum as strings: decodes `'minutes' | 'hours' |
'days' | 'weeks'`. -/
def unitFromString (s : String) : Option TimeUnit :=
  if s = "minutes" then some .minutes
  else if s = "hours" then some .hours
  else if s = "days" then some .days
  else if s = "weeks" then some .weeks
  else none

/-- Renders a `TimeUnit` as its source string. -/
def unitToString : TimeUnit → String
  | .minutes => "minutes"
  | .hours => "hours"
  | .days => "days"
  | .weeks => "weeks"

/-- `validUnits.includes(x)` from the import code: true exactly for the
four unit strings (a non-string never equals a string). -/
def unitIncludes : Option Json → Bool
  | some (.str s) => (unitFromString s).isSome
  | _ => false

/-- `validateImportTaskData(taskData)`: the duck-typed structural check,
conjunct for conjunct.  Every property access is guarded by the
truthiness of its receiver in an earlier conjunct, so the `Option.bind`
model coincides with the source's member accesses. -/
def validateImportTaskData (taskData : Json) : Bool :=
  truthy (some taskData) &&
  isObjectType taskData &&
  truthy (jsGet taskData "estimate") &&
  truthy (jsGetOpt (jsGet taskData "estimate") "optimistic") &&
  truthy (jsGetOpt (jsGet taskData "estimate") "nominal") &&
  truthy (jsGetOpt (jsGet taskData "estimate") "pessimistic") &&
  isNumType (jsGetOpt (jsGetOpt (jsGet taskData "estimate") "optimistic") "value") &&
  isNumType (jsGetOpt (jsGetOpt (jsGet taskData "estimate") "nominal") "value") &&
  isNumType (jsGetOpt (jsGetOpt (jsGet taskData "estimate") "pessimistic") "value") &&
  unitIncludes (jsGetOpt (jsGetOpt (jsGet taskData "estimate") "optimistic") "unit") &&
  unitIncludes (jsGetOpt (jsGetOpt (jsGet taskData "estimate") "nominal") "unit") &&
  unitIncludes (jsGetOpt (jsGetOpt (jsGet taskData "estimate") "pessimistic") "unit")

/-- Reads a `TimeValue` out of a task-data JSON node (the
`taskData.estimate` cast in the source, which after
`validateImportTaskData` always succeeds). -/
def extractTimeValue (o : Option Json) : Option TimeValue :=
  match jsGetOpt o "value", jsGetOpt o "unit" with
  | some (.num q), some (.str s) => (unitFromString s).map fun u => ⟨q, u⟩
  | _, _ => none

/-- Reads the `estimate` field of a task-data JSON node. -/
def extractEstimate (taskData : Json) : Option TaskEstimate :=
  match extractTimeValue (jsGetOpt (jsGet taskData "estimate") "optimistic"),
        extractTimeValue (jsGetOpt (jsGet taskData "estimate") "nominal"),
        extractTimeValue (jsGetOpt (jsGet taskData "estimate") "pessimistic") with
  | some o, some n, some p => some ⟨o, n, p⟩
  | _, _, _ => none

/-- `taskData.name` as the factory's name argument (a string value;
anything else is modelled as absent). -/
def jsName (taskData : Json) : Option String :=
  match jsGet taskData "name" with
  | some (.str s) => some s
  | _ => none

/-- `taskData.id` as the factory's id argument (a string value;
anything else is modelled as absent). -/
def jsId (taskData : Json) : Option String :=
  match jsGet taskData "id" with
  | some (.str s) => some s
  | _ => none

/-- One iteration of the JSON importer's per-item loop (shared between
the envelope branch, which forwards `taskData.id`, and the bare-array
branch, which does not).  `.error` carries the pushed error string; the
`try/catch` around the body is modelled by the two unreachable
`.error` fallbacks. -/
def importTaskItem (genId : String) (useId : Bool) (idx : Nat) (taskData : Json) :
    Except String Task :=
  if validateImportTaskData taskData = false then
    .error ("Task " ++ toString (idx + 1) ++ ": Invalid task structure")
  else
    match extractEstimate taskData with
    | none =>
      .error ("Task " ++ toString (idx + 1) ++ ": Invalid task structure")
    | some estimate =>
      if validateEstimate estimate = false then
        .error ("Task " ++ toString (idx + 1) ++ ": Invalid estimates")
      else
        match createTask genId (jsName taskData) estimate
            (if useId then jsId taskData else none) with
        | some t => .ok t
        | none => .error ("Task " ++ toString (idx + 1) ++ ": Error: Invalid estimate")

/-- Pairs each element with its index, starting at `i`. -/
def enumFrom (i : Nat) : List α → List (Nat × α)
  | [] => []
  | x :: xs => (i, x) :: enumFrom (i + 1) xs

/-- Successful results of the per-item loop, in order. -/
def exceptOk : Except String Task → Option Task
  | .ok t => some t
  | .error _ => none

/-- Error strings of the per-item loop, in order. -/
def exceptErr : Except String Task → Option String
  | .ok _ => none
  | .error e => some e

/-- `importFromJSON(jsonContent)`.  The `jsonContent` string argument
is replaced by the outcome of `JSON.parse` on it: `none` models a parse
exception.  A parsed top-level `null` makes the source's `data.version`
access throw, which the same catch turns into the parse-failure error.
`crypto.randomUUID()` inside `createTask` is modelled by `genId`
applied to the item index. -/
def importFromJSON (genId : Nat → String) (parsed : Option Json) : ImportResult :=
  match parsed with
  | none =>
    { projectName := none, tasks := [], isValid := false,
      errors := ["JSON parsing failed"] }
  | some .null =>
    { projectName := none, tasks := [], isValid := false,
      errors := ["JSON parsing failed"] }
  | some data =>
    if truthy (jsGet data "version") && truthy (jsGet data "tasks") &&
        (match jsGet data "tasks" with | some t => isArray t | none => false) then
      let items := match jsGet data "tasks" with | some (.arr xs) => xs | _ => []
      let results := (enumFrom 0 items).map fun p =>
        importTaskItem (genId p.1) true p.1 p.2
      let errors := results.filterMap exceptErr
      { projectName :=
          match jsGet data "projectName" with
          | some (.str s) => some s
          | _ => none
        tasks := results.filterMap exceptOk
        isValid := errors.isEmpty
        errors := errors }
    else if isArray data then
      let items := match data with | .arr xs => xs | _ => []
      let results := (enumFrom 0 items).map fun p =>
        importTaskItem (genId p.1) false p.1 p.2
      let errors := results.filterMap exceptErr
      { projectName := none
        tasks := results.filterMap exceptOk
        isValid := errors.isEmpty
        errors := errors }
    else
      { projectName := none, tasks := [], isValid := false,
        errors := ["Invalid JSON format: Expected tasks array or export data object"] }

/-- JSON encoding of a `TimeValue` (the shape `JSON.stringify` gives
it inside a task). -/
def encodeTimeValue (tv : TimeValue) : Json :=
  .obj [("value", .num tv.value), ("unit", .str (unitToString tv.unit))]

/-- JSON encoding of a `TaskEstimate`. -/
def encodeEstimate (e : TaskEstimate) : Json :=
  .obj [("optimistic", encodeTimeValue e.optimistic),
        ("nominal", encodeTimeValue e.nominal),
        ("pessimistic", encodeTimeValue e.pessimistic)]

/-- JSON encoding of a `Task`.  `JSON.stringify` omits a key whose
value is `undefined`, so an absent name produces no `name` field. -/
def encodeTask (t : Task) : Json :=
  .obj ([("id", Json.str t.id)] ++
    (match t.name with
     | some n => [("name", Json.str n)]
     | none => []) ++
    [("estimate", encodeEstimate t.estimate),
     ("expectedDuration", Json.num t.expectedDuration),
     ("standardDeviation", Json.num t.standardDeviation),
     ("variance", Json.num t.variance)])

/-- JSON encoding of a `ProjectSummary`. -/
def encodeSummary (s : ProjectSummary) : Json :=
  .obj [("totalExpectedDuration", Json.num s.totalExpectedDuration),
        ("totalStandardDeviation", Json.num s.totalStandardDeviation),
        ("totalVariance", Json.num s.totalVariance),
        ("tasks", Json.arr (s.tasks.map encodeTask))]

/-- `exportToJSON(tasks, projectSummary, projectName?)` as the JSON
value `JSON.parse` recovers from the produced string.
`new Date().toISOString()` is modelled by the `exportedAt` parameter;
`JSON.stringify` omits an absent `projectName`. -/
def exportToJSON (tasks : List Task) (projectSummary : ProjectSummary)
    (projectName : Option String) (exportedAt : String) : Json :=
  .obj ((match projectName with
         | some n => [("projectName", Json.str n)]
         | none => []) ++
    [("tasks", Json.arr (tasks.map encodeTask)),
     ("projectSummary", encodeSummary projectSummary),
     ("exportedAt", Json.str exportedAt),
     ("version", Json.str "1.0")])

/-- A task record as the factory produces it: a non-empty id (ids come
from `crypto.randomUUID()` or a non-empty caller-supplied string) and
derived fields that are exactly the PERT calculation of its estimate. -/
def IsFactoryTask (t : Task) : Prop :=
  t.id ≠ "" ∧
  calculatePert t.estimate =
    some ⟨t.expectedDuration, t.standardDeviation, t.variance⟩

/-- A concrete factory-built task used by witnesses. -/
def sampleTask : Task := ⟨"id-1", some "Demo", exampleEstimate, 5, 5/3, 25/9⟩

/-- A concrete task whose three magnitudes are the integer 3 (a
zero-variance estimate), used to exhibit the exporter's `toString`
formatting of magnitudes. -/
def flatTask : Task :=
  ⟨"i", some "T", ⟨⟨3, .hours⟩, ⟨3, .hours⟩, ⟨3, .hours⟩⟩, 3, 0, 0⟩

/-- A concrete CSV file with a project-name line, the blank line, the
header line, and one malformed (5-column) data row — which is line 4
of the file. -/
def c9Input : String :=
  "\"Project: Demo\"\n\n\"Task Name\",\"Optimistic Value\",\"Optimistic Unit\",\"Nominal Value\",\"Nominal Unit\",\"Pessimistic Value\",\"Pessimistic Unit\",\"Expected Duration (hours)\",\"Standard Deviation (hours)\"\n\"A\",\"1\",\"hours\",\"2\",\"x\""

/-- A concrete CSV file with one valid data row and one row whose
estimate violates the ordering rule. -/
def partialCsv : String :=
  "\"Task Name\",\"Optimistic Value\",\"Optimistic Unit\",\"Nominal Value\",\"Nominal Unit\",\"Pessimistic Value\",\"Pessimistic Unit\",\"Expected Duration (hours)\",\"Standard Deviation (hours)\"\n\"A\",\"1\",\"hours\",\"2\",\"hours\",\"3\",\"hours\",\"2.00\",\"0.33\"\n\"B\",\"9\",\"hours\",\"2\",\"hours\",\"3\",\"hours\",\"2.00\",\"0.33\""

/-- A concrete bare-array JSON payload with one well-formed task item
and one structurally invalid item. -/
def partialJson : Json := Json.arr [encodeTask sampleTask, Json.num 3]

/-- A factory-shaped task with no name. -/
def unnamedTask : Task := ⟨"i1", none, exampleEstimate, 5, 5/3, 25/9⟩

/-- A factory-shaped task with the empty string as its name. -/
def emptyNameTask : Task := ⟨"i2", some "", exampleEstimate, 5, 5/3, 25/9⟩

/-- A factory-shaped task whose name carries a leading space. -/
def spacedNameTask : Task := ⟨"i3", some " A", exampleEstimate, 5, 5/3, 25/9⟩

/-- A factory-shaped task whose name contains a double quote. -/
def quotedNameTask : Task := ⟨"i4", some "\",", exampleEstimate, 5, 5/3, 25/9⟩

/-- A factory-shaped task whose name contains a line feed. -/
def newlineNameTask : Task := ⟨"i5", some "A\nB", exampleEstimate, 5, 5/3, 25/9⟩

/-- A factory-shaped task whose name contains a carriage return. -/
def crNameTask : Task := ⟨"i6", some "A\rB", exampleEstimate, 5, 5/3, 25/9⟩

/-- An estimate whose magnitude 1/3 has no finite decimal expansion
(no binary float equals 1/3; the value exists only in the rational
model). -/
def thirdEstimate : TaskEstimate :=
  ⟨⟨1/3, .hours⟩, ⟨1/3, .hours⟩, ⟨1/3, .hours⟩⟩

/-- The factory task over `thirdEstimate`. -/
def thirdTask : Task := ⟨"i7", some "T", thirdEstimate, 1/3, 0, 0⟩

/-- JavaScript's whitespace class: the characters matched by `\s` and
stripped by `String.prototype.trim` (tab, LF, VT, FF, CR, space,
NBSP, U+1680, U+2000-U+200A, U+2028, U+2029, U+202F, U+205F, U+3000,
U+FEFF). -/
def isWhitespaceChar (c : Char) : Bool :=
  c.toNat = 9 || c.toNat = 10 || c.toNat = 11 || c.toNat = 12 ||
  c.toNat = 13 || c.toNat = 32 || c.toNat = 160 || c.toNat = 5760 ||
  (8192 ≤ c.toNat && c.toNat ≤ 8202) ||
  c.toNat = 8232 || c.toNat = 8233 || c.toNat = 8239 ||
  c.toNat = 8287 || c.toNat = 12288 || c.toNat = 65279

/-- What the regex metacharacter `.` matches (any character except the
JavaScript line terminators LF, CR, U+2028, U+2029). -/
def dotOk (c : Char) : Bool :=
  !(c.toNat = 10 || c.toNat = 13 || c.toNat = 8232 || c.toNat = 8233)

/-- `String.prototype.trim`. -/
def trimChars (cs : List Char) : List Char :=
  ((cs.dropWhile isWhitespaceChar).reverse.dropWhile isWhitespaceChar).reverse

/-- `String.prototype.split('\n')`: always returns one more part than
there are separators. -/
def splitOnNl : List Char → List (List Char)
  | [] => [[]]
  | c :: rest =>
    match splitOnNl rest with
    | [] => [[]]
    | l :: ls => if c = '\n' then [] :: l :: ls else (c :: l) :: ls

/-- `String.prototype.includes` for a pattern list. -/
def containsSub (pat cs : List Char) : Bool :=
  cs.tails.any fun t => pat.isPrefixOf t

/-- The digit character for `n < 10`. -/
def digitChar (n : Nat) : Char := Char.ofNat (48 + n)

/-- `Char` digit test (ASCII `0`-`9`, code points 48-57). -/
def isDigitChar (c : Char) : Bool := 48 ≤ c.toNat && c.toNat ≤ 57

/-- The numeric value of a digit character. -/
def digitVal (c : Char) : Nat := c.toNat - 48

/-- Base-10 digit rendering, fuelled so that it computes by
reduction.  The fuel argument strictly dominates `n`. -/
def natToCharsAux : Nat → Nat → List Char → List Char
  | 0, _, acc => acc
  | fuel + 1, n, acc =>
    if n < 10 then digitChar n :: acc
    else natToCharsAux fuel (n / 10) (digitChar (n % 10) :: acc)

/-- The decimal digit string of a natural number (`Number.toString` on
a non-negative integer value). -/
def natToChars (n : Nat) : List Char := natToCharsAux (n + 1) n []

/-- Left fold reading a digit string as a natural number. -/
def charsToNat (cs : List Char) : Nat :=
  cs.foldl (fun a c => a * 10 + digitVal c) 0

/-- `padZeros n` is `n` copies of `'0'`. -/
def padZeros (n : Nat) : List Char := List.replicate n '0'

/-- `parseFloat`: skips leading whitespace, reads an optional sign, an
integer digit run, an optional `.` plus fraction digit run, and an
optional exponent; ignores trailing garbage; `none` models `NaN`.
(The special literal `Infinity`, which no input here produces, is not
modelled.) -/
def parseFloatChars (cs : List Char) : Option ℚ :=
  let cs0 := cs.dropWhile isWhitespaceChar
  let signRest : ℚ × List Char :=
    match cs0 with
    | [] => (1, [])
    | c :: rest =>
      if c = '-' then (-1, rest)
      else if c = '+' then (1, rest)
      else (1, c :: rest)
  let sign := signRest.1
  let cs1 := signRest.2
  let intDigits := cs1.takeWhile isDigitChar
  let afterInt := cs1.dropWhile isDigitChar
  let fracDigits : List Char :=
    match afterInt with
    | [] => []
    | c :: rest => if c = '.' then rest.takeWhile isDigitChar else []
  let afterFrac : List Char :=
    match afterInt with
    | [] => []
    | c :: rest => if c = '.' then rest.dropWhile isDigitChar else c :: rest
  if intDigits = [] ∧ fracDigits = [] then none
  else
    let expVal : Int :=
      match afterFrac with
      | 'e' :: '-' :: ds => -(charsToNat (ds.takeWhile isDigitChar) : Int)
      | 'e' :: '+' :: ds => (charsToNat (ds.takeWhile isDigitChar) : Int)
      | 'e' :: ds => (charsToNat (ds.takeWhile isDigitChar) : Int)
      | 'E' :: '-' :: ds => -(charsToNat (ds.takeWhile isDigitChar) : Int)
      | 'E' :: '+' :: ds => (charsToNat (ds.takeWhile isDigitChar) : Int)
      | 'E' :: ds => (charsToNat (ds.takeWhile isDigitChar) : Int)
      | _ => 0
    some (sign * ((charsToNat intDigits : ℚ) +
      (charsToNat fracDigits : ℚ) / (10 : ℚ) ^ fracDigits.length) *
      (10 : ℚ) ^ expVal)

/-- The least `k ≤ den` with `q * 10^k` integral, when one exists
(it does exactly when the reduced denominator has only the prime
factors 2 and 5, which holds for every finite binary float). -/
def pow10Exp (q : ℚ) : Option Nat :=
  (List.range (q.den + 1)).find? fun k => decide ((q * (10 : ℚ) ^ k).den = 1)

/-- `Number.prototype.toString` for a positive value, modelled for the
plain-decimal regime (JavaScript switches to exponential notation only
beyond 1e21 or below 1e-7, magnitudes no estimate here reaches); the
`none` fallback of `pow10Exp` cannot occur for float-representable
values. -/
def ratPosToChars (q : ℚ) : List Char :=
  match pow10Exp q with
  | some k =>
    if k = 0 then natToChars (q * (10 : ℚ) ^ (0 : Nat)).num.toNat
    else
      let n := (q * (10 : ℚ) ^ k).num.toNat
      natToChars (n / 10 ^ k) ++
        '.' :: (padZeros (k - (natToChars (n % 10 ^ k)).length) ++
          natToChars (n % 10 ^ k))
  | none => []

/-- `Number.prototype.toString`. -/
def ratToChars (q : ℚ) : List Char :=
  if q < 0 then '-' :: ratPosToChars (-q) else ratPosToChars q

/-- The digit part of `toFixed(2)` for a non-negative scaled integer:
`n` is the value rounded to hundredths. -/
def fixedCore (n : Nat) : List Char :=
  natToChars (n / 100) ++
    '.' :: (padZeros (2 - (natToChars (n % 100)).length) ++ natToChars (n % 100))

/-- `Number.prototype.toFixed(2)`: the ECMAScript rounding picks the
integer `m` with `m/100` closest to the value, larger on ties, which
is `⌊100q + 1/2⌋`. -/
def toFixed2 (q : ℚ) : List Char :=
  let m : Int := Rat.floor (q * 100 + 1 / 2)
  if m < 0 then '-' :: fixedCore m.natAbs else fixedCore m.toNat

/-- The regex lookahead `(?=\s*,|\s*$)`. -/
def lookaheadOk (cs : List Char) : Bool :=
  match cs.dropWhile isWhitespaceChar with
  | [] => true
  | ',' :: _ => true
  | _ => false

/-- The lazy body of the alternative `".*?"` with its lookahead: scans
for the first closing quote whose successor position satisfies the
lookahead; a quote that fails the lookahead is swallowed by `.*?`; a
line-terminator character (which `.` cannot match) aborts the
alternative. -/
def findClose : List Char → Option (List Char × List Char)
  | [] => none
  | c :: rest =>
    if c = '"' then
      if lookaheadOk rest then some ([], rest)
      else
        match findClose rest with
        | some (body, r) => some ('"' :: body, r)
        | none => none
    else if dotOk c then
      match findClose rest with
      | some (body, r) => some (c :: body, r)
      | none => none
    else none

/-- The character class `[^",\s]` (34 and 44 are `"` and `,`). -/
def unquotedOk (c : Char) : Bool :=
  !(c.toNat = 34 || c.toNat = 44 || isWhitespaceChar c)

/-- The greedy alternative `[^",\s]+` with its lookahead: any shorter
prefix of the run is followed by another `[^",\s]` character, which
falsifies the lookahead, so only the whole run can match. -/
def matchUnquoted (cs : List Char) : Option (List Char × List Char) :=
  let run := cs.takeWhile unquotedOk
  let rest := cs.dropWhile unquotedOk
  if run = [] then none
  else if lookaheadOk rest then some (run, rest) else none

/-- Global matching of `(".*?"|[^",\s]+)(?=\s*,|\s*$)` over a line
(`line.match(...)` with `/g`): at each position try the quoted
alternative, then the unquoted one, else advance one character.
Fuelled for reduction; each step consumes at least one character, so
fuel equal to the line length suffices. -/
def tokenizeFuel : Nat → List Char → List (List Char)
  | 0, _ => []
  | _ + 1, [] => []
  | fuel + 1, c :: rest =>
    if c = '"' then
      match findClose rest with
      | some (body, r) => ('"' :: (body ++ ['"'])) :: tokenizeFuel fuel r
      | none => tokenizeFuel fuel rest
    else if unquotedOk c then
      match matchUnquoted (c :: rest) with
      | some (tok, r) => tok :: tokenizeFuel fuel r
      | none => tokenizeFuel fuel rest
    else tokenizeFuel fuel rest

/-- The tokenizer at its call site (`line.match(...) || []`). -/
def tokenizeLine (cs : List Char) : List (List Char) :=
  tokenizeFuel cs.length cs

/-- `v.replace(/^"|"$/g, '')`: removes one leading and one trailing
double quote when present. -/
def stripQuotes (cs : List Char) : List Char :=
  let cs1 := match cs with
    | '"' :: rest => rest
    | _ => cs
  match cs1.getLast? with
  | some '"' => cs1.dropLast
  | _ => cs1

/-- The regex `/^"Project:\s*(.+)"$/` applied to a line: the greedy
`\s*` backtracks just enough to leave at least one character for
`(.+)`, and `(.+)` must consist of `.`-matchable characters and be
followed by the final quote. -/
def projNameMatch (line : List Char) : Option (List Char) :=
  if ("\"Project:".data).isPrefixOf line then
    let rest := line.drop 9
    if rest.length < 2 then none
    else
      match rest.getLast? with
      | some '"' =>
        let mid := rest.dropLast
        let ws := (mid.takeWhile isWhitespaceChar).length
        let k := min ws (mid.length - 1)
        if (mid.drop k).all dotOk then some (mid.drop k) else none
      | _ => none
  else none

/-- Joining with a separator (`Array.prototype.join`). -/
def joinWith (sep : List Char) : List (List Char) → List Char
  | [] => []
  | [x] => x
  | x :: y :: rest => x ++ sep ++ joinWith sep (y :: rest)

/-- Wrapping a CSV cell in double quotes (the `` `"${cell}"` `` in the
exporter). -/
def quoteCell (cs : List Char) : List Char := '"' :: (cs ++ ['"'])

/-- The fixed CSV header cells. -/
def csvHeaders : List (List Char) :=
  [("Task Name").data,
   ("Optimistic Value").data,
   ("Optimistic Unit").data,
   ("Nominal Value").data,
   ("Nominal Unit").data,
   ("Pessimistic Value").data,
   ("Pessimistic Unit").data,
   ("Expected Duration (hours)").data,
   ("Standard Deviation (hours)").data]

/-- The positional fallback label `` `Task ${index + 1}` ``. -/
def defaultTaskName (index : Nat) : List Char :=
  ("Task ").data ++ natToChars (index + 1)

/-- The 9 cell strings of one task's CSV row (`task.name || label`,
magnitudes via `toString`, units verbatim, durations via
`toFixed(2)`). -/
def csvRow (index : Nat) (task : Task) : List (List Char) :=
  [(match task.name with
    | some n => if n = "" then defaultTaskName index else n.data
    | none => defaultTaskName index),
   ratToChars task.estimate.optimistic.value,
   (unitToString task.estimate.optimistic.unit).data,
   ratToChars task.estimate.nominal.value,
   (unitToString task.estimate.nominal.unit).data,
   ratToChars task.estimate.pessimistic.value,
   (unitToString task.estimate.pessimistic.unit).data,
   toFixed2 task.expectedDuration,
   toFixed2 task.standardDeviation]

/-- The optional `"Project: <name>"` line plus blank line. -/
def csvPreamble : Option String → List Char
  | some n => '"' :: (("Project: ").data ++ n.data ++ ['"', '\n', '\n'])
  | none => []

/-- `exportToCSV(tasks, projectName?)`. -/
def exportToCSV (tasks : List Task) (projectName : Option String) : String :=
  ⟨csvPreamble projectName ++
    joinWith ['\n'] ((csvHeaders :: (enumFrom 0 tasks).map fun p => csvRow p.1 p.2).map
      fun row => joinWith [','] (row.map quoteCell))⟩

/-- One iteration of the CSV importer's per-row loop; `.error` carries
the pushed error string.  The surrounding `try/catch` is modelled by
the unreachable `.error` fallback after `createTask` (whose guard has
just been checked). -/
def importRow (genId : String) (index : Nat) (line : List Char) :
    Except String Task :=
  let values := tokenizeLine line
  let cleanValues := values.map fun v => trimChars (stripQuotes v)
  if cleanValues.length < 9 then
    .error ("Row " ++ toString (index + 2) ++ ": Insufficient columns")
  else
    match cleanValues with
    | name :: optValue :: optUnit :: nomValue :: nomUnit :: pesValue :: pesUnit :: _ =>
      match parseFloatChars optValue, parseFloatChars nomValue,
            parseFloatChars pesValue with
      | some optimisticValue, some nominalValue, some pessimisticValue =>
        match unitFromString ⟨optUnit⟩, unitFromString ⟨nomUnit⟩,
              unitFromString ⟨pesUnit⟩ with
        | some optUnitV, some nomUnitV, some pesUnitV =>
          let estimate : TaskEstimate :=
            ⟨⟨optimisticValue, optUnitV⟩, ⟨nominalValue, nomUnitV⟩,
             ⟨pessimisticValue, pesUnitV⟩⟩
          if validateEstimate estimate = false then
            .error ("Row " ++ toString (index + 2) ++
              ": Invalid estimates (optimistic ≤ nominal ≤ pessimistic required)")
          else
            match createTask genId (if name = [] then none else some ⟨name⟩)
                estimate none with
            | some t => .ok t
            | none => .error ("Row " ++ toString (index + 2) ++ ": Failed to parse")
        | _, _, _ =>
          .error ("Row " ++ toString (index + 2) ++ ": Invalid time units")
      | _, _, _ =>
        .error ("Row " ++ toString (index + 2) ++ ": Invalid numeric values")
    | _ => .error ("Row " ++ toString (index + 2) ++ ": Insufficient columns")

/-- The header scan: first line at or after `start` containing the
marker `Task Name`; `start` itself if none does. -/
def scanHeader (lines : List (List Char)) (start : Nat) : Nat :=
  match (lines.drop start).findIdx? (fun l => containsSub ("Task Name").data l) with
  | some off => start + off
  | none => start

/-- `importFromCSV(csvContent)`.  `crypto.randomUUID()` inside
`createTask` is modelled by `genId` applied to the data-row index. -/
def importFromCSV (genId : Nat → String) (csvContent : String) : ImportResult :=
  let lines := splitOnNl (trimChars csvContent.data)
  if lines.length < 2 then
    { projectName := none, tasks := [], isValid := false,
      errors := ["CSV file is empty or has no data rows"] }
  else
    let firstLine := lines.headD []
    let pnStart : Option String × Nat :=
      if ("\"Project:".data).isPrefixOf firstLine then
        match projNameMatch firstLine with
        | some nm => (some ⟨nm⟩, 2)
        | none => (none, 0)
      else (none, 0)
    let headerIndex := scanHeader lines pnStart.2
    let dataLines := lines.drop (headerIndex + 1)
    let results := (enumFrom 0 dataLines).map fun p => importRow (genId p.1) p.1 p.2
    let errors := results.filterMap exceptErr
    { projectName := pnStart.1
      tasks := results.filterMap exceptOk
      isValid := errors.isEmpty
      errors := errors }

/-- A denominator with only the prime factors 2 and 5 — exactly the
rationals with a finite decimal expansion, which includes every finite
binary float (whose denominator is a power of 2). -/
def FiniteDec (q : ℚ) : Prop := ∃ a b : Nat, q.den = 2 ^ a * 5 ^ b

/-- A task name that survives the CSV cell round trip: non-empty (so
the `name || label` substitution does not replace it), free of double
quotes and line terminators (so the tokenizer returns the cell
verbatim), and fixed by `trim`. -/
def CsvSafeName (s : String) : Prop :=
  s ≠ "" ∧ trimChars s.data = s.data ∧
    ∀ c ∈ s.data, c ≠ '"' ∧ dotOk c = true

/-- A task whose CSV row survives the round trip: factory-built, with
a safe explicit name and finite-decimal magnitudes. -/
def CsvSafeTask (t : Task) : Prop :=
  IsFactoryTask t ∧
  (∃ s, t.name = some s ∧ CsvSafeName s) ∧
  FiniteDec t.estimate.optimistic.value ∧
  FiniteDec t.estimate.nominal.value ∧
  FiniteDec t.estimate.pessimistic.value

/-- The id-independent content of a task (CSV does not carry ids). -/
def taskData (t : Task) : Option String × TaskEstimate × ℚ × ℚ × ℚ :=
  (t.name, t.estimate, t.expectedDuration, t.standardDeviation, t.variance)

/-- Last three characters are `.` followed by two digits: "formatted
to exactly 2 decimal places". -/
def hasTwoDecimals (cs : List Char) : Bool :=
  match cs.reverse with
  | d1 :: d2 :: '.' :: _ => isDigitChar d1 && isDigitChar d2
  | _ => false

lemma foldl_add_extract (f : Task → ℚ) (l : List Task) (init : ℚ) :
    l.foldl (fun sum task => sum + f task) init = init + (l.map f).sum := by
  induction l generalizing init with
  | nil => simp
  | cons t ts ih =>
    simp only [List.foldl_cons, List.map_cons, List.sum_cons]
    rw [ih]
    ring

lemma validateEstimate_iff (estimate : TaskEstimate) :
    validateEstimate estimate = true ↔
      (0 < convertToHours estimate.optimistic ∧
       0 < convertToHours estimate.nominal ∧
       0 < convertToHours estimate.pessimistic ∧
       convertToHours estimate.optimistic ≤ convertToHours estimate.nominal ∧
       convertToHours estimate.nominal ≤ convertToHours estimate.pessimistic) := by
  simp [validateEstimate, Bool.and_eq_true, decide_eq_true_eq, and_assoc]

/-- C1: for every estimate accepted by the validator, `calculatePert`
returns exactly the three PERT formulas over the hour-converted
magnitudes, the conversion factors are minutes = 1/60, hours = 1,
days = 8, weeks = 40, and the concrete scenario {2h, 4h, 12h} yields
expectedDuration 5, standardDeviation 10/6 and variance (10/6)². -/
theorem calculatePert_formulas (estimate : TaskEstimate)
    (h : validateEstimate estimate = true) :
    calculatePert estimate =
      some ⟨(convertToHours estimate.optimistic + 4 * convertToHours estimate.nominal +
              convertToHours estimate.pessimistic) / 6,
            (convertToHours estimate.pessimistic - convertToHours estimate.optimistic) / 6,
            ((convertToHours estimate.pessimistic - convertToHours estimate.optimistic) / 6) *
              ((convertToHours estimate.pessimistic - convertToHours estimate.optimistic) / 6)⟩ ∧
    (∀ v : ℚ, convertToHours ⟨v, .minutes⟩ = v * (1 / 60) ∧
      convertToHours ⟨v, .hours⟩ = v * 1 ∧
      convertToHours ⟨v, .days⟩ = v * 8 ∧
      convertToHours ⟨v, .weeks⟩ = v * 40) ∧
    calculatePert exampleEstimate = some ⟨5, 10 / 6, (10 / 6) * (10 / 6)⟩ := by
  refine ⟨?_, ?_, ?_⟩
  · simp [calculatePert, h]
  · intro v
    exact ⟨rfl, rfl, rfl, rfl⟩
  · with_unfolding_all rfl

/-- Witness for C1 at the concrete estimate {2h, 4h, 12h}. -/
theorem calculatePert_formulas_witness :
    calculatePert exampleEstimate =
      some ⟨(convertToHours exampleEstimate.optimistic +
              4 * convertToHours exampleEstimate.nominal +
              convertToHours exampleEstimate.pessimistic) / 6,
            (convertToHours exampleEstimate.pessimistic -
              convertToHours exampleEstimate.optimistic) / 6,
            ((convertToHours exampleEstimate.pessimistic -
              convertToHours exampleEstimate.optimistic) / 6) *
              ((convertToHours exampleEstimate.pessimistic -
                convertToHours exampleEstimate.optimistic) / 6)⟩ :=
  (calculatePert_formulas exampleEstimate (by with_unfolding_all rfl)).1

/-- C3: `calculatePert` fails (the modelled throw, `none`) exactly when
the validator rejects, and when the validator accepts it returns a
calculation result. -/
theorem calculatePert_fails_iff_invalid (estimate : TaskEstimate) :
    (calculatePert estimate = none ↔ validateEstimate estimate = false) ∧
    (validateEstimate estimate = true →
      ∃ result, calculatePert estimate = some result) := by
  cases h : validateEstimate estimate <;> simp [calculatePert, h]

/-- C4: the validator accepts exactly the estimates whose hour-converted
magnitudes are positive and ordered, including the degenerate
all-equal case; it is a total boolean predicate (no exception is
modelled because the source cannot throw). -/
theorem validateEstimate_spec (estimate : TaskEstimate) :
    (validateEstimate estimate = true ↔
      (0 < convertToHours estimate.optimistic ∧
       0 < convertToHours estimate.nominal ∧
       0 < convertToHours estimate.pessimistic ∧
       convertToHours estimate.optimistic ≤ convertToHours estimate.nominal ∧
       convertToHours estimate.nominal ≤ convertToHours estimate.pessimistic)) ∧
    (∀ v : ℚ, ∀ u : TimeUnit, 0 < convertToHours ⟨v, u⟩ →
      validateEstimate ⟨⟨v, u⟩, ⟨v, u⟩, ⟨v, u⟩⟩ = true) := by
  constructor
  · exact validateEstimate_iff estimate
  · intro v u hv
    rw [validateEstimate_iff]
    exact ⟨hv, hv, hv, le_refl _, le_refl _⟩

/-- C2: the project summary's totals are the sums of the tasks'
expected durations and variances, the total standard deviation is the
square root applied to the total variance (for a non-empty input; the
empty input short-circuits), the task list is returned unchanged, and
the empty list yields all-zero totals. -/
theorem calculateProjectSummary_spec (sqrt : ℚ → ℚ) (tasks : List Task) :
    (calculateProjectSummary sqrt tasks).totalExpectedDuration =
      (tasks.map Task.expectedDuration).sum ∧
    (calculateProjectSummary sqrt tasks).totalVariance =
      (tasks.map Task.variance).sum ∧
    (tasks ≠ [] →
      (calculateProjectSummary sqrt tasks).totalStandardDeviation =
        sqrt (calculateProjectSummary sqrt tasks).totalVariance) ∧
    (calculateProjectSummary sqrt tasks).tasks = tasks ∧
    calculateProjectSummary sqrt [] =
      { totalExpectedDuration := 0, totalStandardDeviation := 0,
        totalVariance := 0, tasks := [] } := by
  cases tasks with
  | nil => simp [calculateProjectSummary]
  | cons t ts =>
    refine ⟨?_, ?_, ?_, ?_, ?_⟩ <;>
      simp [calculateProjectSummary, foldl_add_extract]

/-- Witness for C2 on a concrete one-task list (exercising the
non-empty implication) with the identity standing in for `Math.sqrt`. -/
theorem calculateProjectSummary_spec_witness :
    (calculateProjectSummary id [⟨"a", none, exampleEstimate, 5, 5/3, 25/9⟩]).totalExpectedDuration =
      ([⟨"a", none, exampleEstimate, 5, 5/3, 25/9⟩].map Task.expectedDuration).sum ∧
    (calculateProjectSummary id [⟨"a", none, exampleEstimate, 5, 5/3, 25/9⟩]).totalVariance =
      ([(⟨"a", none, exampleEstimate, 5, 5/3, 25/9⟩ : Task)].map Task.variance).sum ∧
    (([(⟨"a", none, exampleEstimate, 5, 5/3, 25/9⟩ : Task)] : List Task) ≠ [] →
      (calculateProjectSummary id [⟨"a", none, exampleEstimate, 5, 5/3, 25/9⟩]).totalStandardDeviation =
        id (calculateProjectSummary id [⟨"a", none, exampleEstimate, 5, 5/3, 25/9⟩]).totalVariance) ∧
    (calculateProjectSummary id [⟨"a", none, exampleEstimate, 5, 5/3, 25/9⟩]).tasks =
      [⟨"a", none, exampleEstimate, 5, 5/3, 25/9⟩] ∧
    calculateProjectSummary id [] =
      { totalExpectedDuration := 0, totalStandardDeviation := 0,
        totalVariance := 0, tasks := [] } :=
  calculateProjectSummary_spec id [⟨"a", none, exampleEstimate, 5, 5/3, 25/9⟩]

/-- C10: the factory treats an explicit empty-string id the same as an
absent id (both replaced by the generated identifier), and, provided the
generated identifier is non-empty (as `crypto.randomUUID()` always is),
every task the factory returns has a non-empty id. -/
theorem createTask_nonempty_id (genId : String) (name : Option String)
    (estimate : TaskEstimate) (idArg : Option String) (h : genId ≠ "") :
    createTask genId name estimate (some "") = createTask genId name estimate none ∧
    (∀ t : Task, createTask genId name estimate idArg = some t → t.id ≠ "") := by
  constructor
  · simp [createTask]
  · intro t ht
    unfold createTask at ht
    cases hc : calculatePert estimate with
    | none => rw [hc] at ht; simp at ht
    | some c =>
      rw [hc] at ht
      simp only [Option.map_some', Option.some.injEq] at ht
      subst ht
      match idArg with
      | none => exact h
      | some s =>
        by_cases hs : s = ""
        · simpa [hs] using h
        · simp [hs]

/-- Witness for C10 at a concrete generated id, name, estimate and an
explicit empty-string id argument. -/
theorem createTask_nonempty_id_witness :
    createTask "uuid-1" (some "T") exampleEstimate (some "") =
      createTask "uuid-1" (some "T") exampleEstimate none ∧
    (∀ t : Task, createTask "uuid-1" (some "T") exampleEstimate (some "") = some t →
      t.id ≠ "") :=
  createTask_nonempty_id "uuid-1" (some "T") exampleEstimate (some "") (by decide)

lemma unitFromString_unitToString (u : TimeUnit) :
    unitFromString (unitToString u) = some u := by
  cases u <;> rfl

lemma calculatePert_some_valid {e : TaskEstimate} {r : PertCalculationResult}
    (h : calculatePert e = some r) : validateEstimate e = true := by
  cases hv : validateEstimate e with
  | true => rfl
  | false => rw [calculatePert, hv] at h; simp at h

lemma extractTimeValue_encode (tv : TimeValue) :
    extractTimeValue (some (encodeTimeValue tv)) = some tv := by
  simp [extractTimeValue, encodeTimeValue, jsGetOpt, jsGet, jsLookup,
    unitFromString_unitToString]

lemma jsGet_encodeTask_estimate (t : Task) :
    jsGet (encodeTask t) "estimate" = some (encodeEstimate t.estimate) := by
  cases hn : t.name <;> simp [encodeTask, jsGet, jsLookup, hn]

lemma jsName_encodeTask (t : Task) : jsName (encodeTask t) = t.name := by
  cases hn : t.name <;> simp [jsName, encodeTask, jsGet, jsLookup, hn]

lemma jsId_encodeTask (t : Task) : jsId (encodeTask t) = some t.id := by
  cases hn : t.name <;> simp [jsId, encodeTask, jsGet, jsLookup, hn]

lemma extractEstimate_encodeTask (t : Task) :
    extractEstimate (encodeTask t) = some t.estimate := by
  rw [extractEstimate, jsGet_encodeTask_estimate]
  simp [jsGetOpt, encodeEstimate, jsGet, jsLookup, extractTimeValue_encode]

lemma validateImportTaskData_encodeTask (t : Task) :
    validateImportTaskData (encodeTask t) = true := by
  have hest := jsGet_encodeTask_estimate t
  rw [validateImportTaskData, hest]
  simp [jsGetOpt, encodeEstimate, jsGet, jsLookup, encodeTimeValue, truthy,
    isObjectType, isNumType, unitIncludes, unitFromString_unitToString,
    encodeTask]

lemma importTaskItem_encodeTask (genId : String) (idx : Nat) (t : Task)
    (h : IsFactoryTask t) :
    importTaskItem genId true idx (encodeTask t) = .ok t := by
  obtain ⟨hid, hcalc⟩ := h
  have hval := calculatePert_some_valid hcalc
  obtain ⟨tid, tname, test, ted, tsd, tvar⟩ := t
  rw [importTaskItem, validateImportTaskData_encodeTask, extractEstimate_encodeTask]
  simp [jsName_encodeTask, jsId_encodeTask, hval, createTask, hcalc, hid]

lemma importItems_encode (genId : Nat → String) (tasks : List Task)
    (h : ∀ t ∈ tasks, IsFactoryTask t) (i : Nat) :
    (enumFrom i (tasks.map encodeTask)).map
      (fun p => importTaskItem (genId p.1) true p.1 p.2) =
      tasks.map Except.ok := by
  induction tasks generalizing i with
  | nil => rfl
  | cons t ts ih =>
    simp only [List.map_cons, enumFrom]
    rw [importTaskItem_encodeTask _ _ t (h t (by simp)),
      ih (fun t' ht' => h t' (by simp [ht'])) (i + 1)]

lemma filterMap_exceptOk_ok (l : List Task) :
    (l.map Except.ok).filterMap exceptOk = l := by
  induction l with
  | nil => rfl
  | cons t ts ih => simp [exceptOk, ih]

lemma filterMap_exceptErr_ok (l : List Task) :
    (l.map Except.ok).filterMap exceptErr = ([] : List String) := by
  induction l with
  | nil => rfl
  | cons t ts ih => simp [exceptErr, ih]

lemma importFromJSON_envelope (genId : Nat → String)
    (fields : List (String × Json)) (items : List Json)
    (hv : jsLookup fields "version" = some (.str "1.0"))
    (ht : jsLookup fields "tasks" = some (.arr items)) :
    importFromJSON genId (some (.obj fields)) =
      { projectName :=
          match jsLookup fields "projectName" with
          | some (.str s) => some s
          | _ => none
        tasks := ((enumFrom 0 items).map fun p =>
          importTaskItem (genId p.1) true p.1 p.2).filterMap exceptOk
        isValid := (((enumFrom 0 items).map fun p =>
          importTaskItem (genId p.1) true p.1 p.2).filterMap exceptErr).isEmpty
        errors := ((enumFrom 0 items).map fun p =>
          importTaskItem (genId p.1) true p.1 p.2).filterMap exceptErr } := by
  have h1 : jsGet (Json.obj fields) "version" = some (Json.str "1.0") := hv
  have h2 : jsGet (Json.obj fields) "tasks" = some (Json.arr items) := ht
  unfold importFromJSON
  simp only [h1, h2, truthy, isArray, Bool.and_true, Bool.and_self, decide_not]
  simp
  rfl

/-- C5: exporting any factory-built task list together with its
computed summary to JSON and importing the result yields a valid
`ImportResult` whose task list is exactly the original (ids, names,
estimates and derived fields are all preserved, in order). -/
theorem json_export_import_roundtrip (genId : Nat → String) (sqrt : ℚ → ℚ)
    (projectName : Option String) (exportedAt : String) (tasks : List Task)
    (h : ∀ t ∈ tasks, IsFactoryTask t) :
    (importFromJSON genId (some (exportToJSON tasks
      (calculateProjectSummary sqrt tasks) projectName exportedAt))).isValid = true ∧
    (importFromJSON genId (some (exportToJSON tasks
      (calculateProjectSummary sqrt tasks) projectName exportedAt))).tasks = tasks := by
  cases hpn : projectName with
  | none =>
    have hexp : exportToJSON tasks (calculateProjectSummary sqrt tasks) none exportedAt =
        Json.obj [("tasks", Json.arr (tasks.map encodeTask)),
          ("projectSummary", encodeSummary (calculateProjectSummary sqrt tasks)),
          ("exportedAt", Json.str exportedAt),
          ("version", Json.str "1.0")] := rfl
    rw [hexp, importFromJSON_envelope genId
        [("tasks", Json.arr (tasks.map encodeTask)),
         ("projectSummary", encodeSummary (calculateProjectSummary sqrt tasks)),
         ("exportedAt", Json.str exportedAt),
         ("version", Json.str "1.0")] (tasks.map encodeTask) rfl rfl,
      importItems_encode genId tasks h 0]
    constructor
    · rw [filterMap_exceptErr_ok]
      rfl
    · exact filterMap_exceptOk_ok tasks
  | some n =>
    have hexp : exportToJSON tasks (calculateProjectSummary sqrt tasks) (some n) exportedAt =
        Json.obj [("projectName", Json.str n),
          ("tasks", Json.arr (tasks.map encodeTask)),
          ("projectSummary", encodeSummary (calculateProjectSummary sqrt tasks)),
          ("exportedAt", Json.str exportedAt),
          ("version", Json.str "1.0")] := rfl
    rw [hexp, importFromJSON_envelope genId
        [("projectName", Json.str n),
         ("tasks", Json.arr (tasks.map encodeTask)),
         ("projectSummary", encodeSummary (calculateProjectSummary sqrt tasks)),
         ("exportedAt", Json.str exportedAt),
         ("version", Json.str "1.0")] (tasks.map encodeTask) rfl rfl,
      importItems_encode genId tasks h 0]
    constructor
    · rw [filterMap_exceptErr_ok]
      rfl
    · exact filterMap_exceptOk_ok tasks

/-- Witness for C5 on a concrete one-task list. -/
theorem json_export_import_roundtrip_witness :
    (importFromJSON (fun n => "g" ++ toString n) (some (exportToJSON [sampleTask]
      (calculateProjectSummary id [sampleTask]) (some "P") "2024-01-01"))).isValid = true ∧
    (importFromJSON (fun n => "g" ++ toString n) (some (exportToJSON [sampleTask]
      (calculateProjectSummary id [sampleTask]) (some "P") "2024-01-01"))).tasks =
      [sampleTask] := by
  refine json_export_import_roundtrip _ id (some "P") "2024-01-01" [sampleTask] ?_
  intro t ht
  rw [List.mem_singleton] at ht
  subst ht
  constructor
  · decide
  · with_unfolding_all rfl

lemma digitChar_toNat {n : Nat} (h : n < 10) : (digitChar n).toNat = 48 + n := by
  interval_cases n <;> rfl

lemma digitVal_digitChar {n : Nat} (h : n < 10) : digitVal (digitChar n) = n := by
  rw [digitVal, digitChar_toNat h]
  omega

lemma isDigitChar_digitChar {n : Nat} (h : n < 10) :
    isDigitChar (digitChar n) = true := by
  rw [isDigitChar, digitChar_toNat h]
  simp only [Bool.and_eq_true, decide_eq_true_eq]
  omega

lemma isDigitChar_bounds {c : Char} (h : isDigitChar c = true) :
    48 ≤ c.toNat ∧ c.toNat ≤ 57 := by
  rw [isDigitChar] at h
  simpa using h

lemma isDigitChar_props {c : Char} (h : isDigitChar c = true) :
    c ≠ '"' ∧ dotOk c = true ∧ isWhitespaceChar c = false ∧
    c ≠ '-' ∧ c ≠ '+' := by
  obtain ⟨h1, h2⟩ := isDigitChar_bounds h
  refine ⟨?_, ?_, ?_, ?_, ?_⟩
  · intro he
    subst he
    revert h1 h2
    decide
  · rw [dotOk]
    simp only [Bool.not_eq_true']
    simp only [Bool.or_eq_false_iff, decide_eq_false_iff_not]
    omega
  · rw [isWhitespaceChar]
    simp only [Bool.or_eq_false_iff, Bool.and_eq_false_iff,
      decide_eq_false_iff_not, not_le]
    omega
  · intro he
    subst he
    revert h1 h2
    decide
  · intro he
    subst he
    revert h1 h2
    decide

lemma natToCharsAux_append : ∀ (fuel n : Nat) (acc : List Char), n < fuel →
    natToCharsAux fuel n acc = natToCharsAux fuel n [] ++ acc := by
  intro fuel
  induction fuel with
  | zero => intro n acc h; omega
  | succ fl ih =>
    intro n acc h
    by_cases h10 : n < 10
    · simp [natToCharsAux, h10]
    · have hdiv : n / 10 < fl :=
        lt_of_lt_of_le (Nat.div_lt_self (by omega) (by omega)) (by omega)
      simp only [natToCharsAux, if_neg h10]
      rw [ih (n / 10) _ hdiv, ih (n / 10) [digitChar (n % 10)] hdiv]
      simp

lemma natToCharsAux_fuel : ∀ (f1 f2 n : Nat), n < f1 → n < f2 →
    natToCharsAux f1 n [] = natToCharsAux f2 n [] := by
  intro f1
  induction f1 with
  | zero => intro f2 n h1 _; omega
  | succ fl ih =>
    intro f2 n h1 h2
    cases f2 with
    | zero => omega
    | succ f2' =>
      by_cases h10 : n < 10
      · simp [natToCharsAux, h10]
      · have hd1 : n / 10 < fl :=
          lt_of_lt_of_le (Nat.div_lt_self (by omega) (by omega)) (by omega)
        have hd2 : n / 10 < f2' :=
          lt_of_lt_of_le (Nat.div_lt_self (by omega) (by omega)) (by omega)
        simp only [natToCharsAux, if_neg h10]
        rw [natToCharsAux_append fl _ _ hd1, natToCharsAux_append f2' _ _ hd2,
          ih f2' (n / 10) hd1 hd2]

lemma natToChars_eq (n : Nat) :
    natToChars n =
      if n < 10 then [digitChar n]
      else natToChars (n / 10) ++ [digitChar (n % 10)] := by
  by_cases h10 : n < 10
  · simp [natToChars, natToCharsAux, h10]
  · have hdiv : n / 10 < n := Nat.div_lt_self (by omega) (by omega)
    rw [if_neg h10]
    conv_lhs => rw [natToChars]
    simp only [natToCharsAux, if_neg h10]
    rw [natToCharsAux_append n _ _ hdiv,
      natToCharsAux_fuel n (n / 10 + 1) (n / 10) hdiv (Nat.lt_succ_self _)]
    rfl

lemma natToChars_ne_nil (n : Nat) : natToChars n ≠ [] := by
  rw [natToChars_eq]
  by_cases h10 : n < 10 <;> simp [h10]

lemma natToChars_mem (n : Nat) : ∀ c ∈ natToChars n, ∃ m, m < 10 ∧ c = digitChar m := by
  induction n using Nat.strong_induction_on with
  | _ n ih =>
    intro c hc
    rw [natToChars_eq] at hc
    by_cases h10 : n < 10
    · rw [if_pos h10] at hc
      simp at hc
      exact ⟨n, h10, hc⟩
    · rw [if_neg h10] at hc
      rcases List.mem_append.mp hc with h | h
      · exact ih (n / 10) (Nat.div_lt_self (by omega) (by omega)) c h
      · simp at h
        exact ⟨n % 10, Nat.mod_lt _ (by omega), h⟩

lemma natToChars_all_digits (n : Nat) :
    ∀ c ∈ natToChars n, isDigitChar c = true := by
  intro c hc
  obtain ⟨m, hm, he⟩ := natToChars_mem n c hc
  rw [he]
  exact isDigitChar_digitChar hm

lemma natToChars_length_le : ∀ (n k : Nat), 1 ≤ k → n < 10 ^ k →
    (natToChars n).length ≤ k := by
  intro n
  induction n using Nat.strong_induction_on with
  | _ n ih =>
    intro k hk h
    by_cases h10 : n < 10
    · rw [natToChars_eq, if_pos h10]
      simpa using hk
    · have hk2 : 2 ≤ k := by
        by_contra hcon
        have : k = 1 := by omega
        subst this
        simp at h
        omega
      have hdiv : n / 10 < 10 ^ (k - 1) := by
        rw [Nat.div_lt_iff_lt_mul (by omega)]
        calc n < 10 ^ k := h
          _ = 10 ^ (k - 1) * 10 := by
            rw [← pow_succ]
            congr 1
            omega
      rw [natToChars_eq, if_neg h10, List.length_append]
      have := ih (n / 10) (Nat.div_lt_self (by omega) (by omega)) (k - 1)
        (by omega) hdiv
      simp only [List.length_cons, List.length_nil]
      omega

lemma charsToNat_natToChars_gen : ∀ (n a : Nat),
    List.foldl (fun x c => x * 10 + digitVal c) a (natToChars n) =
      a * 10 ^ (natToChars n).length + n := by
  intro n
  induction n using Nat.strong_induction_on with
  | _ n ih =>
    intro a
    by_cases h10 : n < 10
    · rw [natToChars_eq, if_pos h10]
      simp [digitVal_digitChar h10]
    · have hdiv : n / 10 < n := Nat.div_lt_self (by omega) (by omega)
      rw [natToChars_eq, if_neg h10, List.foldl_append, List.length_append]
      simp only [List.foldl_cons, List.foldl_nil, List.length_cons,
        List.length_nil]
      rw [ih (n / 10) hdiv a, digitVal_digitChar (Nat.mod_lt _ (by omega))]
      simp only [Nat.zero_add]
      calc (a * 10 ^ (natToChars (n / 10)).length + n / 10) * 10 + n % 10
          = a * (10 ^ (natToChars (n / 10)).length * 10) +
            (n / 10 * 10 + n % 10) := by ring
        _ = a * 10 ^ ((natToChars (n / 10)).length + 1) + n := by
            rw [← pow_succ, Nat.div_add_mod']

lemma charsToNat_natToChars (n : Nat) : charsToNat (natToChars n) = n := by
  rw [charsToNat, charsToNat_natToChars_gen]
  simp

lemma charsToNat_padZeros (m : Nat) (cs : List Char) :
    charsToNat (padZeros m ++ cs) = charsToNat cs := by
  induction m with
  | zero => rfl
  | succ m' ih =>
    rw [padZeros, List.replicate_succ, List.cons_append, charsToNat,
      List.foldl_cons]
    have h0 : 0 * 10 + digitVal '0' = 0 := by
      rw [digitVal]
      rfl
    rw [h0]
    exact ih

lemma takeWhile_append_of {α} (p : α → Bool) : ∀ (xs ys : List α),
    (∀ x ∈ xs, p x = true) → (∀ c, ys.head? = some c → p c = false) →
    (xs ++ ys).takeWhile p = xs ∧ (xs ++ ys).dropWhile p = ys := by
  intro xs
  induction xs with
  | nil =>
    intro ys _ hy
    cases ys with
    | nil => exact ⟨rfl, rfl⟩
    | cons c t =>
      have := hy c rfl
      constructor <;> simp [List.takeWhile_cons, List.dropWhile_cons, this]
  | cons x xs' ih =>
    intro ys hx hy
    have hpx : p x = true := hx x (by simp)
    obtain ⟨h1, h2⟩ := ih ys (fun a ha => hx a (by simp [ha])) hy
    constructor <;>
      simp [List.takeWhile_cons, List.dropWhile_cons, hpx, h1, h2]

lemma dropWhile_eq_self_of_head {α} (p : α → Bool) (xs : List α)
    (h : ∀ c, xs.head? = some c → p c = false) : xs.dropWhile p = xs := by
  cases xs with
  | nil => rfl
  | cons c t => simp [List.dropWhile_cons, h c rfl]

lemma takeWhile_all {α} (p : α → Bool) (xs : List α)
    (h : ∀ x ∈ xs, p x = true) :
    xs.takeWhile p = xs ∧ xs.dropWhile p = [] := by
  have := takeWhile_append_of p xs [] h (by intro c hc; simp at hc)
  simpa using this

lemma den_mul_pow_ten (q : ℚ) (k : Nat) (hd : q.den ∣ 10 ^ k) :
    (q * (10 : ℚ) ^ k).den = 1 := by
  obtain ⟨c, hc⟩ := hd
  have hden : (q.den : ℚ) ≠ 0 := Nat.cast_ne_zero.mpr q.den_nz
  have hnum : (q.num : ℚ) = q * (q.den : ℚ) := by
    have h := congrArg (fun x : ℚ => x * (q.den : ℚ)) (Rat.num_div_den q)
    simp only [div_mul_cancel₀ _ hden] at h
    exact h
  have key : q * (10 : ℚ) ^ k = ((q.num * c : ℤ) : ℚ) := by
    have hcast : ((10 : ℚ)) ^ k = (q.den : ℚ) * (c : ℚ) := by
      have h2 := congrArg (fun m : Nat => (m : ℚ)) hc
      push_cast at h2
      linarith [h2]
    rw [hcast]
    push_cast
    rw [hnum]
    ring
  rw [key, Rat.den_intCast]

lemma pow10Exp_spec (q : ℚ) (h : FiniteDec q) :
    ∃ k, pow10Exp q = some k ∧ (q * (10 : ℚ) ^ k).den = 1 := by
  obtain ⟨a, b, hab⟩ := h
  have hdvd : q.den ∣ 10 ^ max a b := by
    rw [hab]
    have h10 : (10 : ℕ) ^ max a b = 2 ^ max a b * 5 ^ max a b := by
      rw [← Nat.mul_pow]
    rw [h10]
    exact Nat.mul_dvd_mul (pow_dvd_pow 2 (le_max_left a b))
      (pow_dvd_pow 5 (le_max_right a b))
  have hmem : max a b ∈ List.range (q.den + 1) := by
    rw [List.mem_range]
    have ha : a < 2 ^ a := Nat.lt_two_pow a
    have hb : b < 5 ^ b :=
      lt_of_lt_of_le (Nat.lt_two_pow b) (Nat.pow_le_pow_left (by omega) b)
    have h2a : 2 ^ a ≤ q.den := by
      rw [hab]
      exact Nat.le_mul_of_pos_right _ (pow_pos (by omega) b)
    have h5b : 5 ^ b ≤ q.den := by
      rw [hab]
      exact Nat.le_mul_of_pos_left _ (pow_pos (by omega) a)
    omega
  have hsome : (pow10Exp q).isSome := by
    rw [pow10Exp, List.find?_isSome]
    exact ⟨max a b, hmem, by simp [den_mul_pow_ten q _ hdvd]⟩
  obtain ⟨k, hk⟩ := Option.isSome_iff_exists.mp hsome
  refine ⟨k, hk, ?_⟩
  rw [pow10Exp] at hk
  have := List.find?_some hk
  simpa using this

lemma parse_digits_only (ds : List Char) (hne : ds ≠ [])
    (hds : ∀ c ∈ ds, isDigitChar c = true) :
    parseFloatChars ds = some ((charsToNat ds : ℚ)) := by
  obtain ⟨d, t, rfl⟩ : ∃ d t, ds = d :: t := by
    cases ds with
    | nil => exact absurd rfl hne
    | cons d t => exact ⟨d, t, rfl⟩
  have hd := hds d (by simp)
  obtain ⟨-, -, hws, hminus, hplus⟩ := isDigitChar_props hd
  have hdrop : (d :: t).dropWhile isWhitespaceChar = d :: t := by
    apply dropWhile_eq_self_of_head
    intro c hc
    simp at hc
    subst hc
    exact hws
  obtain ⟨htake, hdrop2⟩ := takeWhile_all isDigitChar (d :: t) hds
  simp only [parseFloatChars, hdrop, if_neg hminus, if_neg hplus, htake,
    hdrop2]
  rw [if_neg (by simp)]
  simp [charsToNat]

lemma parse_digits_point_digits (A F : List Char) (hA : A ≠ [])
    (hdA : ∀ c ∈ A, isDigitChar c = true)
    (hdF : ∀ c ∈ F, isDigitChar c = true) :
    parseFloatChars (A ++ '.' :: F) =
      some ((charsToNat A : ℚ) + (charsToNat F : ℚ) / (10 : ℚ) ^ F.length) := by
  obtain ⟨d, t, rfl⟩ : ∃ d t, A = d :: t := by
    cases A with
    | nil => exact absurd rfl hA
    | cons d t => exact ⟨d, t, rfl⟩
  have hd := hdA d (by simp)
  obtain ⟨-, -, hws, hminus, hplus⟩ := isDigitChar_props hd
  have hdrop : (d :: (t ++ '.' :: F)).dropWhile isWhitespaceChar =
      d :: (t ++ '.' :: F) := by
    apply dropWhile_eq_self_of_head
    intro c hc
    simp at hc
    subst hc
    exact hws
  obtain ⟨htake, hdrop2⟩ := takeWhile_append_of isDigitChar (d :: t) ('.' :: F)
    hdA (by intro c hc; simp at hc; subst hc; rfl)
  simp only [List.cons_append] at htake hdrop2
  obtain ⟨htakeF, hdropF⟩ := takeWhile_all isDigitChar F hdF
  simp only [parseFloatChars, List.cons_append, hdrop, if_neg hminus,
    if_neg hplus, htake, hdrop2, if_pos rfl, htakeF, hdropF]
  rw [if_neg (by simp)]
  simp

lemma ratPosToChars_classes (q : ℚ) :
    ∀ c ∈ ratPosToChars q, isDigitChar c = true ∨ c = '.' := by
  intro c hc
  rw [ratPosToChars] at hc
  cases hpe : pow10Exp q with
  | none =>
    rw [hpe] at hc
    simp at hc
  | some k =>
    rw [hpe] at hc
    dsimp only at hc
    by_cases hk0 : k = 0
    · rw [if_pos hk0] at hc
      exact Or.inl (natToChars_all_digits _ c hc)
    · rw [if_neg hk0] at hc
      rcases List.mem_append.mp hc with h | h
      · exact Or.inl (natToChars_all_digits _ c h)
      · rcases List.mem_cons.mp h with h | h
        · exact Or.inr h
        · rcases List.mem_append.mp h with h | h
          · rw [padZeros] at h
            rw [List.eq_of_mem_replicate h]
            exact Or.inl (by rw [isDigitChar]; rfl)
          · exact Or.inl (natToChars_all_digits _ c h)

lemma ratPosToChars_spec (q : ℚ) (hq : 0 < q) (h : FiniteDec q) :
    parseFloatChars (ratPosToChars q) = some q ∧ ratPosToChars q ≠ [] := by
  obtain ⟨k, hpe, hden⟩ := pow10Exp_spec q h
  have hNq : (((q * (10 : ℚ) ^ k).num : ℚ)) = q * (10 : ℚ) ^ k :=
    (Rat.den_eq_one_iff _).mp hden
  have hnum_pos : 0 < (q * (10 : ℚ) ^ k).num :=
    Rat.num_pos.mpr (by positivity)
  have htn : ((q * (10 : ℚ) ^ k).num.toNat : ℤ) = (q * (10 : ℚ) ^ k).num :=
    Int.toNat_of_nonneg (le_of_lt hnum_pos)
  have hcast : (((q * (10 : ℚ) ^ k).num.toNat : ℚ)) = q * (10 : ℚ) ^ k := by
    rw [← hNq]
    exact_mod_cast congrArg (fun z : ℤ => (z : ℚ)) htn
  have h10k : ((10 : ℚ)) ^ k ≠ 0 := by positivity
  by_cases hk0 : k = 0
  · subst hk0
    rw [ratPosToChars, hpe]
    dsimp only
    rw [if_pos rfl]
    refine ⟨?_, natToChars_ne_nil _⟩
    rw [parse_digits_only _ (natToChars_ne_nil _) (natToChars_all_digits _),
      charsToNat_natToChars]
    have : (((q * (10 : ℚ) ^ (0 : Nat)).num.toNat : ℚ)) = q := by
      rw [hcast]
      simp
    rw [this]
  · rw [ratPosToChars, hpe]
    dsimp only
    rw [if_neg hk0]
    set n := (q * (10 : ℚ) ^ k).num.toNat with hn
    have hLle : (natToChars (n % 10 ^ k)).length ≤ k :=
      natToChars_length_le _ k (by omega) (Nat.mod_lt _ (pow_pos (by omega) k))
    refine ⟨?_, by simp⟩
    rw [parse_digits_point_digits _ _ (natToChars_ne_nil _)
      (natToChars_all_digits _)
      (by
        intro c hc
        rcases List.mem_append.mp hc with h | h
        · rw [padZeros] at h
          rw [List.eq_of_mem_replicate h, isDigitChar]
          rfl
        · exact natToChars_all_digits _ c h)]
    have hexp : (padZeros (k - (natToChars (n % 10 ^ k)).length) ++
        natToChars (n % 10 ^ k)).length = k := by
      rw [List.length_append, padZeros, List.length_replicate]
      omega
    rw [hexp, charsToNat_padZeros, charsToNat_natToChars, charsToNat_natToChars]
    have hqn : q = (n : ℚ) / (10 : ℚ) ^ k := by
      rw [hcast, mul_div_cancel_right₀ _ h10k]
    rw [hqn]
    congr 1
    rw [eq_div_iff h10k, add_mul, div_mul_cancel₀ _ h10k]
    exact_mod_cast Nat.div_add_mod' n (10 ^ k)

lemma fixedCore_structure (m : Nat) :
    ∃ fr, fixedCore m = natToChars (m / 100) ++ '.' :: fr ∧ fr.length = 2 ∧
      ∀ c ∈ fr, isDigitChar c = true := by
  refine ⟨padZeros (2 - (natToChars (m % 100)).length) ++ natToChars (m % 100),
    rfl, ?_, ?_⟩
  · rw [List.length_append, padZeros, List.length_replicate]
    have h2 : (natToChars (m % 100)).length ≤ 2 :=
      natToChars_length_le _ 2 (by omega) (Nat.mod_lt _ (by omega))
    omega
  · intro c hc
    rcases List.mem_append.mp hc with h | h
    · rw [padZeros] at h
      rw [List.eq_of_mem_replicate h, isDigitChar]
      rfl
    · exact natToChars_all_digits _ c h

lemma hasTwoDecimals_append_point (A fr : List Char) (h2 : fr.length = 2)
    (hd : ∀ c ∈ fr, isDigitChar c = true) :
    hasTwoDecimals (A ++ '.' :: fr) = true := by
  obtain ⟨d1, d2, rfl⟩ : ∃ d1 d2, fr = [d1, d2] := by
    match fr, h2 with
    | [d1, d2], _ => exact ⟨d1, d2, rfl⟩
  have hrev : (A ++ '.' :: [d1, d2]).reverse = d2 :: d1 :: '.' :: A.reverse := by
    rw [List.reverse_append]
    rfl
  rw [hasTwoDecimals, hrev]
  simp [hd d1 (by simp), hd d2 (by simp)]

lemma toFixed2_hasTwoDecimals (q : ℚ) : hasTwoDecimals (toFixed2 q) = true := by
  rw [toFixed2]
  by_cases hm : Rat.floor (q * 100 + 1 / 2) < 0
  · rw [if_pos hm]
    obtain ⟨fr, hfc, h2, hd⟩ := fixedCore_structure (Rat.floor (q * 100 + 1 / 2)).natAbs
    rw [hfc, ← List.cons_append]
    exact hasTwoDecimals_append_point _ _ h2 hd
  · rw [if_neg hm]
    obtain ⟨fr, hfc, h2, hd⟩ := fixedCore_structure (Rat.floor (q * 100 + 1 / 2)).toNat
    rw [hfc]
    exact hasTwoDecimals_append_point _ _ h2 hd

lemma digit_or_dot_cell {c : Char} (h : isDigitChar c = true ∨ c = '.') :
    c ≠ '"' ∧ dotOk c = true ∧ isWhitespaceChar c = false := by
  rcases h with h | h
  · obtain ⟨h1, h2, h3, -, -⟩ := isDigitChar_props h
    exact ⟨h1, h2, h3⟩
  · subst h
    refine ⟨by decide, by decide, by decide⟩

lemma fixedCore_classes (m : Nat) :
    ∀ c ∈ fixedCore m, isDigitChar c = true ∨ c = '.' := by
  intro c hc
  obtain ⟨fr, hfc, h2, hd⟩ := fixedCore_structure m
  rw [hfc] at hc
  rcases List.mem_append.mp hc with h | h
  · exact Or.inl (natToChars_all_digits _ c h)
  · rcases List.mem_cons.mp h with h | h
    · exact Or.inr h
    · exact Or.inl (hd c h)

lemma toFixed2_cell (q : ℚ) :
    ∀ c ∈ toFixed2 q, c ≠ '"' ∧ dotOk c = true ∧ isWhitespaceChar c = false := by
  intro c hc
  rw [toFixed2] at hc
  by_cases hm : Rat.floor (q * 100 + 1 / 2) < 0
  · rw [if_pos hm] at hc
    rcases List.mem_cons.mp hc with h | h
    · subst h
      refine ⟨by decide, by decide, by decide⟩
    · exact digit_or_dot_cell (fixedCore_classes _ c h)
  · rw [if_neg hm] at hc
    exact digit_or_dot_cell (fixedCore_classes _ c hc)

lemma unit_chars (u : TimeUnit) :
    (∀ c ∈ (unitToString u).data,
      c ≠ '"' ∧ dotOk c = true ∧ isWhitespaceChar c = false) ∧
    (unitToString u).data ≠ [] := by
  cases u <;> exact ⟨by decide, by decide⟩

lemma trim_no_ws (cs : List Char) (h : ∀ c ∈ cs, isWhitespaceChar c = false) :
    trimChars cs = cs := by
  rw [trimChars,
    dropWhile_eq_self_of_head _ _ (fun c hc => h c (List.mem_of_mem_head? hc)),
    dropWhile_eq_self_of_head _ _
      (fun c hc => h c (List.mem_reverse.mp (List.mem_of_mem_head? hc))),
    List.reverse_reverse]

lemma trim_head_last (cs : List Char)
    (h1 : ∀ c, cs.head? = some c → isWhitespaceChar c = false)
    (h2 : ∀ c, cs.getLast? = some c → isWhitespaceChar c = false) :
    trimChars cs = cs := by
  rw [trimChars, dropWhile_eq_self_of_head _ _ h1,
    dropWhile_eq_self_of_head, List.reverse_reverse]
  intro c hc
  rw [List.head?_reverse] at hc
  exact h2 c hc

lemma stripQuotes_quoteCell (f : List Char) : stripQuotes (quoteCell f) = f := by
  rw [quoteCell, stripQuotes]
  simp [List.getLast?_concat, List.dropLast_concat]

lemma getLast?_quoteCell (l : List Char) : (quoteCell l).getLast? = some '"' := by
  rw [quoteCell, show '"' :: (l ++ ['"']) = ('"' :: l) ++ ['"'] from rfl,
    List.getLast?_concat]

lemma mem_joinWith (sep : List Char) :
    ∀ (ls : List (List Char)) (c : Char), c ∈ joinWith sep ls →
      c ∈ sep ∨ ∃ l ∈ ls, c ∈ l := by
  intro ls
  induction ls with
  | nil => intro c hc; simp [joinWith] at hc
  | cons x rest ih =>
    intro c hc
    cases rest with
    | nil =>
      rw [joinWith] at hc
      exact Or.inr ⟨x, by simp, hc⟩
    | cons y rest' =>
      rw [joinWith] at hc
      rcases List.mem_append.mp hc with h | h
      · rcases List.mem_append.mp h with h | h
        · exact Or.inr ⟨x, by simp, h⟩
        · exact Or.inl h
      · rcases ih c h with h | ⟨l, hl, hcl⟩
        · exact Or.inl h
        · exact Or.inr ⟨l, by simp [hl], hcl⟩

lemma head?_joinWith_cons (sep : List Char) (x : List Char)
    (rest : List (List Char)) (hx : x ≠ []) :
    (joinWith sep (x :: rest)).head? = x.head? := by
  obtain ⟨c, t, rfl⟩ : ∃ c t, x = c :: t := by
    cases x with
    | nil => exact absurd rfl hx
    | cons c t => exact ⟨c, t, rfl⟩
  cases rest with
  | nil => rfl
  | cons y r => rfl

lemma getLast?_joinWith (sep : List Char) :
    ∀ (ls : List (List Char)) (x : List Char), ls.getLast? = some x →
      x ≠ [] → (joinWith sep ls).getLast? = x.getLast? := by
  intro ls
  induction ls with
  | nil => intro x hx; simp at hx
  | cons a rest ih =>
    intro x hx hxe
    cases rest with
    | nil =>
      simp at hx
      subst hx
      rfl
    | cons y rest' =>
      rw [List.getLast?_cons_cons] at hx
      have hj := ih x hx hxe
      rw [joinWith, List.getLast?_append, List.getLast?_append, hj]
      obtain ⟨c, hc⟩ : ∃ c, x.getLast? = some c := by
        cases hgl : x.getLast? with
        | none => rw [List.getLast?_eq_none_iff] at hgl; exact absurd hgl hxe
        | some c => exact ⟨c, rfl⟩
      rw [hc]
      rfl

lemma lookaheadOk_comma (r : List Char) : lookaheadOk (',' :: r) = true := rfl

lemma findClose_quoted : ∀ (f r : List Char),
    (∀ c ∈ f, c ≠ '"' ∧ dotOk c = true) → lookaheadOk r = true →
    findClose (f ++ '"' :: r) = some (f, r) := by
  intro f
  induction f with
  | nil =>
    intro r _ hr
    rw [List.nil_append, findClose]
    simp [hr]
  | cons c f' ih =>
    intro r hf hr
    obtain ⟨hcq, hcd⟩ := hf c (by simp)
    rw [List.cons_append, findClose, if_neg hcq, if_pos hcd,
      ih r (fun a ha => hf a (by simp [ha])) hr]

lemma tokenizeFuel_nil (fuel : Nat) : tokenizeFuel fuel [] = [] := by
  cases fuel <;> rfl

lemma tokenize_quoted_fields : ∀ (fields : List (List Char)) (fuel : Nat),
    fields ≠ [] → (∀ f ∈ fields, ∀ c ∈ f, c ≠ '"' ∧ dotOk c = true) →
    (joinWith [','] (fields.map quoteCell)).length ≤ fuel →
    tokenizeFuel fuel (joinWith [','] (fields.map quoteCell)) =
      fields.map quoteCell := by
  intro fields
  induction fields with
  | nil => intro fuel h; exact absurd rfl h
  | cons f rest ih =>
    intro fuel _ hok hfuel
    cases rest with
    | nil =>
      simp only [List.map_cons, List.map_nil, joinWith] at hfuel ⊢
      rw [quoteCell] at hfuel
      simp only [List.length_cons, List.length_append] at hfuel
      obtain ⟨fl, rfl⟩ : ∃ fl, fuel = fl + 1 := by
        cases fuel with
        | zero => omega
        | succ fl => exact ⟨fl, rfl⟩
      rw [quoteCell, tokenizeFuel, if_pos rfl,
        show f ++ ['"'] = f ++ '"' :: [] from rfl,
        findClose_quoted f [] (hok f (by simp)) rfl]
      dsimp only
      rw [tokenizeFuel_nil]
    | cons g rest' =>
      have hshape : joinWith [','] ((f :: g :: rest').map quoteCell) =
          '"' :: (f ++ '"' :: ',' ::
            joinWith [','] ((g :: rest').map quoteCell)) := by
        simp [joinWith, quoteCell]
      rw [hshape] at hfuel ⊢
      simp only [List.length_cons, List.length_append] at hfuel
      obtain ⟨fl', rfl⟩ : ∃ fl', fuel = fl' + 1 + 1 := by
        cases fuel with
        | zero => omega
        | succ fl =>
          cases fl with
          | zero => omega
          | succ fl' => exact ⟨fl', rfl⟩
      rw [tokenizeFuel, if_pos rfl,
        findClose_quoted f _ (hok f (by simp)) (lookaheadOk_comma _)]
      dsimp only
      rw [tokenizeFuel, if_neg (by decide), if_neg (by decide)]
      rw [ih fl' (by simp) (fun a ha => hok a (by simp [ha])) (by omega)]
      rfl

lemma factor_pos (u : TimeUnit) : 0 < TIME_UNIT_TO_HOURS u := by
  cases u <;> norm_num [TIME_UNIT_TO_HOURS]

lemma validateEstimate_pos_values {e : TaskEstimate}
    (h : validateEstimate e = true) :
    0 < e.optimistic.value ∧ 0 < e.nominal.value ∧ 0 < e.pessimistic.value := by
  obtain ⟨h1, h2, h3, -, -⟩ := (validateEstimate_iff e).mp h
  rw [convertToHours] at h1 h2 h3
  refine ⟨?_, ?_, ?_⟩
  · rcases mul_pos_iff.mp h1 with ⟨hv, -⟩ | ⟨-, hf⟩
    · exact hv
    · exact absurd (factor_pos _) (not_lt.mpr (le_of_lt hf))
  · rcases mul_pos_iff.mp h2 with ⟨hv, -⟩ | ⟨-, hf⟩
    · exact hv
    · exact absurd (factor_pos _) (not_lt.mpr (le_of_lt hf))
  · rcases mul_pos_iff.mp h3 with ⟨hv, -⟩ | ⟨-, hf⟩
    · exact hv
    · exact absurd (factor_pos _) (not_lt.mpr (le_of_lt hf))

lemma string_data_ne_nil {s : String} (h : s ≠ "") : s.data ≠ [] := by
  intro hd
  apply h
  cases s with
  | mk data =>
    simp at hd
    simp [hd]

lemma importRow_roundtrip (genId : String) (idx : Nat) (t : Task)
    (h : CsvSafeTask t) :
    importRow genId idx (joinWith [','] ((csvRow idx t).map quoteCell)) =
      .ok ⟨genId, t.name, t.estimate, t.expectedDuration,
        t.standardDeviation, t.variance⟩ := by
  obtain ⟨⟨hid, hcalc⟩, ⟨s, hname, hsne, hstrim, hschars⟩, hf1, hf2, hf3⟩ := h
  have hval : validateEstimate t.estimate = true := calculatePert_some_valid hcalc
  obtain ⟨hv1, hv2, hv3⟩ := validateEstimate_pos_values hval
  obtain ⟨tid, tname, test, ted, tsd, tvar⟩ := t
  obtain ⟨⟨ov, ou⟩, ⟨nv, nu⟩, ⟨pv, pu⟩⟩ := test
  dsimp only at hname hcalc hval hv1 hv2 hv3 hf1 hf2 hf3 ⊢
  subst hname
  have hratO : ratToChars ov = ratPosToChars ov := by
    rw [ratToChars, if_neg (not_lt.mpr (le_of_lt hv1))]
  have hratN : ratToChars nv = ratPosToChars nv := by
    rw [ratToChars, if_neg (not_lt.mpr (le_of_lt hv2))]
  have hratP : ratToChars pv = ratPosToChars pv := by
    rw [ratToChars, if_neg (not_lt.mpr (le_of_lt hv3))]
  have hrow : csvRow idx ⟨tid, some s, ⟨⟨ov, ou⟩, ⟨nv, nu⟩, ⟨pv, pu⟩⟩,
      ted, tsd, tvar⟩ =
      [s.data, ratToChars ov, (unitToString ou).data, ratToChars nv,
       (unitToString nu).data, ratToChars pv, (unitToString pu).data,
       toFixed2 ted, toFixed2 tsd] := by
    simp [csvRow, hsne]
  rw [hrow]
  have hcells : ∀ f ∈ [s.data, ratToChars ov, (unitToString ou).data,
      ratToChars nv, (unitToString nu).data, ratToChars pv,
      (unitToString pu).data, toFixed2 ted, toFixed2 tsd],
      ∀ c ∈ f, c ≠ '"' ∧ dotOk c = true := by
    intro f hf c hc
    simp only [List.mem_cons, List.not_mem_nil, or_false] at hf
    rcases hf with rfl | rfl | rfl | rfl | rfl | rfl | rfl | rfl | rfl
    · exact hschars c hc
    · rw [hratO] at hc
      obtain ⟨ha, hb, -⟩ := digit_or_dot_cell (ratPosToChars_classes ov c hc)
      exact ⟨ha, hb⟩
    · obtain ⟨ha, hb, -⟩ := (unit_chars ou).1 c hc
      exact ⟨ha, hb⟩
    · rw [hratN] at hc
      obtain ⟨ha, hb, -⟩ := digit_or_dot_cell (ratPosToChars_classes nv c hc)
      exact ⟨ha, hb⟩
    · obtain ⟨ha, hb, -⟩ := (unit_chars nu).1 c hc
      exact ⟨ha, hb⟩
    · rw [hratP] at hc
      obtain ⟨ha, hb, -⟩ := digit_or_dot_cell (ratPosToChars_classes pv c hc)
      exact ⟨ha, hb⟩
    · obtain ⟨ha, hb, -⟩ := (unit_chars pu).1 c hc
      exact ⟨ha, hb⟩
    · obtain ⟨ha, hb, -⟩ := toFixed2_cell ted c hc
      exact ⟨ha, hb⟩
    · obtain ⟨ha, hb, -⟩ := toFixed2_cell tsd c hc
      exact ⟨ha, hb⟩
  have htok : tokenizeLine (joinWith [','] ([s.data, ratToChars ov,
      (unitToString ou).data, ratToChars nv, (unitToString nu).data,
      ratToChars pv, (unitToString pu).data, toFixed2 ted,
      toFixed2 tsd].map quoteCell)) =
      [s.data, ratToChars ov, (unitToString ou).data, ratToChars nv,
       (unitToString nu).data, ratToChars pv, (unitToString pu).data,
       toFixed2 ted, toFixed2 tsd].map quoteCell := by
    rw [tokenizeLine]
    exact tokenize_quoted_fields _ _ (by simp) hcells (le_refl _)
  have trimO : trimChars (ratToChars ov) = ratToChars ov := by
    rw [hratO]
    exact trim_no_ws _ fun c hc =>
      (digit_or_dot_cell (ratPosToChars_classes ov c hc)).2.2
  have trimN : trimChars (ratToChars nv) = ratToChars nv := by
    rw [hratN]
    exact trim_no_ws _ fun c hc =>
      (digit_or_dot_cell (ratPosToChars_classes nv c hc)).2.2
  have trimP : trimChars (ratToChars pv) = ratToChars pv := by
    rw [hratP]
    exact trim_no_ws _ fun c hc =>
      (digit_or_dot_cell (ratPosToChars_classes pv c hc)).2.2
  have trimUO : trimChars (unitToString ou).data = (unitToString ou).data :=
    trim_no_ws _ fun c hc => ((unit_chars ou).1 c hc).2.2
  have trimUN : trimChars (unitToString nu).data = (unitToString nu).data :=
    trim_no_ws _ fun c hc => ((unit_chars nu).1 c hc).2.2
  have trimUP : trimChars (unitToString pu).data = (unitToString pu).data :=
    trim_no_ws _ fun c hc => ((unit_chars pu).1 c hc).2.2
  have trimE : trimChars (toFixed2 ted) = toFixed2 ted :=
    trim_no_ws _ fun c hc => (toFixed2_cell ted c hc).2.2
  have trimS : trimChars (toFixed2 tsd) = toFixed2 tsd :=
    trim_no_ws _ fun c hc => (toFixed2_cell tsd c hc).2.2
  rw [importRow, htok]
  simp only [List.map_cons, List.map_nil, stripQuotes_quoteCell, hstrim,
    trimO, trimN, trimP, trimUO, trimUN, trimUP, trimE, trimS]
  rw [if_neg (by simp)]
  have hmkO : (⟨(unitToString ou).data⟩ : String) = unitToString ou := rfl
  have hmkN : (⟨(unitToString nu).data⟩ : String) = unitToString nu := rfl
  have hmkP : (⟨(unitToString pu).data⟩ : String) = unitToString pu := rfl
  rw [hratO, hratN, hratP, (ratPosToChars_spec ov hv1 hf1).1,
    (ratPosToChars_spec nv hv2 hf2).1, (ratPosToChars_spec pv hv3 hf3).1]
  dsimp only
  rw [hmkO, hmkN, hmkP, unitFromString_unitToString,
    unitFromString_unitToString, unitFromString_unitToString]
  dsimp only
  rw [hval]
  simp only [Bool.true_eq_false, if_false]
  rw [if_neg (string_data_ne_nil hsne)]
  rw [createTask, hcalc]
  rfl

lemma mem_enumFrom {α} : ∀ (l : List α) (i : Nat) (p : Nat × α),
    p ∈ enumFrom i l → p.2 ∈ l := by
  intro l
  induction l with
  | nil => intro i p hp; simp [enumFrom] at hp
  | cons x xs ih =>
    intro i p hp
    rw [enumFrom] at hp
    rcases List.mem_cons.mp hp with h | h
    · subst h
      simp
    · exact List.mem_cons_of_mem _ (ih (i + 1) p h)

lemma enumFrom_length {α} : ∀ (l : List α) (i : Nat),
    (enumFrom i l).length = l.length := by
  intro l
  induction l with
  | nil => intro i; rfl
  | cons x xs ih => intro i; simp [enumFrom, ih]

lemma csvRow_cells_ok (idx : Nat) (t : Task) (h : CsvSafeTask t) :
    ∀ f ∈ csvRow idx t, ∀ c ∈ f, c ≠ '"' ∧ dotOk c = true := by
  obtain ⟨⟨hid, hcalc⟩, ⟨s, hname, hsne, hstrim, hschars⟩, hf1, hf2, hf3⟩ := h
  have hval : validateEstimate t.estimate = true := calculatePert_some_valid hcalc
  obtain ⟨hv1, hv2, hv3⟩ := validateEstimate_pos_values hval
  obtain ⟨tid, tname, test, ted, tsd, tvar⟩ := t
  obtain ⟨⟨ov, ou⟩, ⟨nv, nu⟩, ⟨pv, pu⟩⟩ := test
  dsimp only at hname hv1 hv2 hv3
  subst hname
  have hratO : ratToChars ov = ratPosToChars ov := by
    rw [ratToChars, if_neg (not_lt.mpr (le_of_lt hv1))]
  have hratN : ratToChars nv = ratPosToChars nv := by
    rw [ratToChars, if_neg (not_lt.mpr (le_of_lt hv2))]
  have hratP : ratToChars pv = ratPosToChars pv := by
    rw [ratToChars, if_neg (not_lt.mpr (le_of_lt hv3))]
  intro f hf c hc
  rw [show csvRow idx ⟨tid, some s, ⟨⟨ov, ou⟩, ⟨nv, nu⟩, ⟨pv, pu⟩⟩,
      ted, tsd, tvar⟩ =
      [s.data, ratToChars ov, (unitToString ou).data, ratToChars nv,
       (unitToString nu).data, ratToChars pv, (unitToString pu).data,
       toFixed2 ted, toFixed2 tsd] from by simp [csvRow, hsne]] at hf
  simp only [List.mem_cons, List.not_mem_nil, or_false] at hf
  rcases hf with rfl | rfl | rfl | rfl | rfl | rfl | rfl | rfl | rfl
  · exact hschars c hc
  · rw [hratO] at hc
    obtain ⟨ha, hb, -⟩ := digit_or_dot_cell (ratPosToChars_classes ov c hc)
    exact ⟨ha, hb⟩
  · obtain ⟨ha, hb, -⟩ := (unit_chars ou).1 c hc
    exact ⟨ha, hb⟩
  · rw [hratN] at hc
    obtain ⟨ha, hb, -⟩ := digit_or_dot_cell (ratPosToChars_classes nv c hc)
    exact ⟨ha, hb⟩
  · obtain ⟨ha, hb, -⟩ := (unit_chars nu).1 c hc
    exact ⟨ha, hb⟩
  · rw [hratP] at hc
    obtain ⟨ha, hb, -⟩ := digit_or_dot_cell (ratPosToChars_classes pv c hc)
    exact ⟨ha, hb⟩
  · obtain ⟨ha, hb, -⟩ := (unit_chars pu).1 c hc
    exact ⟨ha, hb⟩
  · obtain ⟨ha, hb, -⟩ := toFixed2_cell ted c hc
    exact ⟨ha, hb⟩
  · obtain ⟨ha, hb, -⟩ := toFixed2_cell tsd c hc
    exact ⟨ha, hb⟩

lemma rowline_props (fields : List (List Char)) (hne : fields ≠ [])
    (hok : ∀ f ∈ fields, ∀ c ∈ f, c ≠ '"' ∧ dotOk c = true) :
    ('\n' ∉ joinWith [','] (fields.map quoteCell)) ∧
    (joinWith [','] (fields.map quoteCell)).head? = some '"' ∧
    (joinWith [','] (fields.map quoteCell)).getLast? = some '"' := by
  refine ⟨?_, ?_, ?_⟩
  · intro hmem
    rcases mem_joinWith _ _ _ hmem with hs | ⟨l, hl, hcl⟩
    · exact absurd hs (by decide)
    · obtain ⟨f, hf, rfl⟩ := List.mem_map.mp hl
      rw [quoteCell] at hcl
      rcases List.mem_cons.mp hcl with hq | hq
      · exact absurd hq (by decide)
      · rcases List.mem_append.mp hq with hq | hq
        · have := (hok f hf '\n' hq).2
          rw [dotOk] at this
          simp at this
        · simp at hq
  · obtain ⟨f, rest, rfl⟩ : ∃ f rest, fields = f :: rest := by
      cases fields with
      | nil => exact absurd rfl hne
      | cons f rest => exact ⟨f, rest, rfl⟩
    rw [List.map_cons, head?_joinWith_cons _ _ _ (by rw [quoteCell]; simp)]
    rfl
  · obtain ⟨g, hg⟩ : ∃ g, (fields.map quoteCell).getLast? = some (quoteCell g) := by
      obtain ⟨g, hg⟩ : ∃ g, fields.getLast? = some g := by
        cases hgl : fields.getLast? with
        | none => rw [List.getLast?_eq_none_iff] at hgl; exact absurd hgl hne
        | some g => exact ⟨g, rfl⟩
      exact ⟨g, by rw [List.getLast?_map, hg]; rfl⟩
    rw [getLast?_joinWith _ _ _ hg (by rw [quoteCell]; simp),
      getLast?_quoteCell]

lemma csv_rows_roundtrip (genId : Nat → String) :
    ∀ (tasks : List Task) (i : Nat), (∀ t ∈ tasks, CsvSafeTask t) →
    (enumFrom i ((enumFrom i tasks).map fun p =>
        joinWith [','] ((csvRow p.1 p.2).map quoteCell))).map
      (fun p => importRow (genId p.1) p.1 p.2) =
    (enumFrom i tasks).map fun p => Except.ok
      ⟨genId p.1, p.2.name, p.2.estimate, p.2.expectedDuration,
       p.2.standardDeviation, p.2.variance⟩ := by
  intro tasks
  induction tasks with
  | nil => intro i h; rfl
  | cons t ts ih =>
    intro i h
    simp only [enumFrom, List.map_cons]
    rw [importRow_roundtrip (genId i) i t (h t (by simp)),
      ih (i + 1) (fun t' ht' => h t' (by simp [ht']))]

lemma filterMap_exceptOk_map_ok {α} (f : α → Task) (l : List α) :
    ((l.map fun x => (Except.ok (f x) : Except String Task)).filterMap
      exceptOk) = l.map f := by
  induction l with
  | nil => rfl
  | cons x xs ih => simp [exceptOk, ih]

lemma filterMap_exceptErr_map_ok {α} (f : α → Task) (l : List α) :
    ((l.map fun x => (Except.ok (f x) : Except String Task)).filterMap
      exceptErr) = [] := by
  induction l with
  | nil => rfl
  | cons x xs ih => simp [exceptErr, ih]

lemma map_taskData_enum (genId : Nat → String) :
    ∀ (tasks : List Task) (i : Nat),
    ((enumFrom i tasks).map fun p => (⟨genId p.1, p.2.name, p.2.estimate,
      p.2.expectedDuration, p.2.standardDeviation, p.2.variance⟩ :
        Task)).map taskData = tasks.map taskData := by
  intro tasks
  induction tasks with
  | nil => intro i; rfl
  | cons t ts ih =>
    intro i
    simp only [enumFrom, List.map_cons, ih]
    rfl

lemma filterMap_ok_import (genId : Nat → String) :
    ∀ (tasks : List Task) (i : Nat),
    ((enumFrom i tasks).map fun p => (Except.ok ⟨genId p.1, p.2.name,
      p.2.estimate, p.2.expectedDuration, p.2.standardDeviation,
      p.2.variance⟩ : Except String Task)).filterMap exceptOk =
    (enumFrom i tasks).map fun p => (⟨genId p.1, p.2.name, p.2.estimate,
      p.2.expectedDuration, p.2.standardDeviation, p.2.variance⟩ : Task) := by
  intro tasks
  induction tasks with
  | nil => intro i; rfl
  | cons t ts ih => intro i; simp [enumFrom, exceptOk, ih]

lemma filterMap_err_import (genId : Nat → String) :
    ∀ (tasks : List Task) (i : Nat),
    ((enumFrom i tasks).map fun p => (Except.ok ⟨genId p.1, p.2.name,
      p.2.estimate, p.2.expectedDuration, p.2.standardDeviation,
      p.2.variance⟩ : Except String Task)).filterMap exceptErr = [] := by
  intro tasks
  induction tasks with
  | nil => intro i; rfl
  | cons t ts ih => intro i; simp [enumFrom, exceptErr, ih]

lemma importFromCSV_eval (genId : Nat → String) (content : String)
    (hd' : List Char) (rows' : List (List Char))
    (hsplit : splitOnNl (trimChars content.data) = hd' :: rows')
    (hlen : rows' ≠ [])
    (hpref : ("\"Project:".data).isPrefixOf hd' = false)
    (hhdr : containsSub ("Task Name").data hd' = true) :
    importFromCSV genId content =
      { projectName := none
        tasks := ((enumFrom 0 rows').map fun p =>
          importRow (genId p.1) p.1 p.2).filterMap exceptOk
        isValid := (((enumFrom 0 rows').map fun p =>
          importRow (genId p.1) p.1 p.2).filterMap exceptErr).isEmpty
        errors := ((enumFrom 0 rows').map fun p =>
          importRow (genId p.1) p.1 p.2).filterMap exceptErr } := by
  have hlen2 : ¬ (hd' :: rows').length < 2 := by
    cases rows' with
    | nil => exact absurd rfl hlen
    | cons r rs => simp
  rw [importFromCSV, hsplit, if_neg hlen2]
  dsimp only [List.headD]
  rw [hpref]
  rw [if_neg (by simp)]
  rw [scanHeader]
  dsimp only [List.drop]
  rw [List.findIdx?_cons, if_pos hhdr]
  rfl

lemma mem_of_getLast?' {α} : ∀ (l : List α) (x : α),
    l.getLast? = some x → x ∈ l := by
  intro l
  induction l with
  | nil => intro x hx; simp at hx
  | cons a rest ih =>
    intro x hx
    cases rest with
    | nil =>
      simp at hx
      subst hx
      simp
    | cons b rs =>
      rw [List.getLast?_cons_cons] at hx
      exact List.mem_cons_of_mem _ (ih x hx)

lemma splitOnNl_ne_nil : ∀ cs : List Char, splitOnNl cs ≠ [] := by
  intro cs
  induction cs with
  | nil => simp [splitOnNl]
  | cons c rest ih =>
    rw [splitOnNl]
    cases hs : splitOnNl rest with
    | nil => simp
    | cons l ls =>
      by_cases hc : c = '\n' <;> simp [hc]

lemma splitOnNl_no_nl : ∀ cs : List Char, '\n' ∉ cs → splitOnNl cs = [cs] := by
  intro cs
  induction cs with
  | nil => intro _; rfl
  | cons c rest ih =>
    intro hn
    have hc : c ≠ '\n' := fun hce => hn (by simp [hce])
    have hrest : '\n' ∉ rest := fun hm => hn (by simp [hm])
    rw [splitOnNl, ih hrest]
    simp [hc]

lemma splitOnNl_append_nl : ∀ (x t : List Char), '\n' ∉ x →
    splitOnNl (x ++ '\n' :: t) = x :: splitOnNl t := by
  intro x
  induction x with
  | nil =>
    intro t _
    rw [List.nil_append, splitOnNl]
    cases hs : splitOnNl t with
    | nil => exact absurd hs (splitOnNl_ne_nil t)
    | cons l ls => simp
  | cons c x' ih =>
    intro t hn
    have hc : c ≠ '\n' := fun hce => hn (by simp [hce])
    have hx' : '\n' ∉ x' := fun hm => hn (by simp [hm])
    rw [List.cons_append, splitOnNl, ih t hx']
    simp [hc]

lemma splitOnNl_joinWith : ∀ (ls : List (List Char)), ls ≠ [] →
    (∀ l ∈ ls, '\n' ∉ l) → splitOnNl (joinWith ['\n'] ls) = ls := by
  intro ls
  induction ls with
  | nil => intro hc; exact absurd rfl hc
  | cons x rest ih =>
    intro _ hnl
    cases rest with
    | nil => exact splitOnNl_no_nl x (hnl x (by simp))
    | cons y rest' =>
      rw [joinWith,
        show x ++ ['\n'] ++ joinWith ['\n'] (y :: rest') =
          x ++ '\n' :: joinWith ['\n'] (y :: rest') from by simp,
        splitOnNl_append_nl _ _ (hnl x (by simp)),
        ih (by simp) (fun l hl => hnl l (by simp [hl]))]

/-- C6 (amended): exporting a non-empty collection of factory-built
tasks, each with a CSV-safe explicit name and finite-decimal
magnitudes, to CSV with no project name and importing the result
yields a valid `ImportResult` whose tasks match the originals in
names, estimates and derived fields, in order (ids are freshly
generated). -/
theorem csv_export_import_roundtrip (genId : Nat → String)
    (tasks : List Task) (hne : tasks ≠ [])
    (h : ∀ t ∈ tasks, CsvSafeTask t) :
    (importFromCSV genId (exportToCSV tasks none)).isValid = true ∧
    (importFromCSV genId (exportToCSV tasks none)).errors = [] ∧
    (importFromCSV genId (exportToCSV tasks none)).projectName = none ∧
    (importFromCSV genId (exportToCSV tasks none)).tasks.map taskData =
      tasks.map taskData := by
  have hdata : (exportToCSV tasks none).data =
      joinWith ['\n'] (joinWith [','] (csvHeaders.map quoteCell) ::
        (enumFrom 0 tasks).map fun p =>
          joinWith [','] ((csvRow p.1 p.2).map quoteCell)) := by
    rw [exportToCSV]
    dsimp only [csvPreamble]
    rw [List.nil_append, List.map_cons, List.map_map]
    rfl
  have hrowprops : ∀ l ∈ (enumFrom 0 tasks).map fun p =>
      joinWith [','] ((csvRow p.1 p.2).map quoteCell),
      ('\n' ∉ l) ∧ l.head? = some '"' ∧ l.getLast? = some '"' := by
    intro l hl
    obtain ⟨p, hp, rfl⟩ := List.mem_map.mp hl
    exact rowline_props _ (by simp [csvRow])
      (csvRow_cells_ok p.1 p.2 (h _ (mem_enumFrom _ _ _ hp)))
  have hrows_ne : ((enumFrom 0 tasks).map fun p =>
      joinWith [','] ((csvRow p.1 p.2).map quoteCell)) ≠ [] := by
    intro hc
    apply hne
    have hlen := congrArg List.length hc
    simp only [List.length_map, enumFrom_length, List.length_nil] at hlen
    exact List.length_eq_zero.mp hlen
  have hhead : (joinWith ['\n'] (joinWith [','] (csvHeaders.map quoteCell) ::
      (enumFrom 0 tasks).map fun p =>
        joinWith [','] ((csvRow p.1 p.2).map quoteCell))).head? = some '"' := by
    rw [head?_joinWith_cons _ _ _ (by decide)]
    rfl
  have hlast : (joinWith ['\n'] (joinWith [','] (csvHeaders.map quoteCell) ::
      (enumFrom 0 tasks).map fun p =>
        joinWith [','] ((csvRow p.1 p.2).map quoteCell))).getLast? =
        some '"' := by
    cases hr : (enumFrom 0 tasks).map fun p =>
        joinWith [','] ((csvRow p.1 p.2).map quoteCell) with
    | nil => exact absurd hr hrows_ne
    | cons r rs =>
      obtain ⟨x, hx⟩ : ∃ x, (r :: rs).getLast? = some x := by
        cases hgl : (r :: rs).getLast? with
        | none =>
          rw [List.getLast?_eq_none_iff] at hgl
          simp at hgl
        | some x => exact ⟨x, rfl⟩
      have hx_mem : x ∈ (enumFrom 0 tasks).map fun p =>
          joinWith [','] ((csvRow p.1 p.2).map quoteCell) := by
        rw [hr]
        exact mem_of_getLast?' _ _ hx
      obtain ⟨hnl, hh, hl⟩ := hrowprops x hx_mem
      have hx_ne : x ≠ [] := by
        intro hc
        rw [hc] at hh
        simp at hh
      rw [getLast?_joinWith ['\n'] _ x (by
        rw [List.getLast?_cons_cons]
        exact hx) hx_ne, hl]
  have htrim : trimChars ((exportToCSV tasks none).data) =
      (exportToCSV tasks none).data := by
    rw [hdata]
    apply trim_head_last
    · intro c hc
      rw [hhead] at hc
      injection hc with hc
      subst hc
      decide
    · intro c hc
      rw [hlast] at hc
      injection hc with hc
      subst hc
      decide
  have hsplit : splitOnNl (trimChars (exportToCSV tasks none).data) =
      joinWith [','] (csvHeaders.map quoteCell) ::
        (enumFrom 0 tasks).map fun p =>
          joinWith [','] ((csvRow p.1 p.2).map quoteCell) := by
    rw [htrim, hdata]
    apply splitOnNl_joinWith _ (by simp)
    intro l hl
    rcases List.mem_cons.mp hl with rfl | hl
    · decide
    · exact (hrowprops l hl).1
  rw [importFromCSV_eval genId _ _ _ hsplit hrows_ne (by decide) (by decide)]
  rw [csv_rows_roundtrip genId tasks 0 h, filterMap_ok_import,
    filterMap_err_import]
  exact ⟨rfl, rfl, rfl, map_taskData_enum genId tasks 0⟩

set_option maxRecDepth 10000 in
/-- Witness for the amended C6 on a concrete one-task list. -/
theorem csv_export_import_roundtrip_witness :
    (importFromCSV (fun n => "g" ++ toString n)
      (exportToCSV [sampleTask] none)).isValid = true ∧
    (importFromCSV (fun n => "g" ++ toString n)
      (exportToCSV [sampleTask] none)).errors = [] ∧
    (importFromCSV (fun n => "g" ++ toString n)
      (exportToCSV [sampleTask] none)).projectName = none ∧
    (importFromCSV (fun n => "g" ++ toString n)
      (exportToCSV [sampleTask] none)).tasks.map taskData =
      [sampleTask].map taskData := by
  refine csv_export_import_roundtrip _ [sampleTask] (by simp) ?_
  intro t ht
  rw [List.mem_singleton] at ht
  subst ht
  refine ⟨⟨by decide, by with_unfolding_all rfl⟩,
    ⟨"Demo", rfl, by decide, by rfl, by decide⟩,
    ⟨0, 0, by with_unfolding_all rfl⟩,
    ⟨0, 0, by with_unfolding_all rfl⟩,
    ⟨0, 0, by with_unfolding_all rfl⟩⟩

set_option maxRecDepth 10000 in
/-- C6 counterexample: the round trip fails on concrete collections in
one way per hypothesis of the amended claim.  The empty collection
exports as the header line alone and is rejected wholesale.  An absent
or empty task name is exported as the positional label and re-imported
as the name "Task 1", so the names are not the same.  A name with a
leading space comes back trimmed.  A name containing a double quote
derails the cell tokenizer (the fields shift and the magnitude cell no
longer parses); a line feed in a name splits the row across two lines;
a carriage return stops the regex `.` from matching the cell.  A
magnitude of 1/3 (a rational no binary float equals, possible only in
the exact model) has no finite decimal rendering, so its cell does not
round-trip. -/
theorem csv_roundtrip_counterexamples :
    (importFromCSV (fun _ => "g") (exportToCSV [] none)).isValid = false ∧
    (importFromCSV (fun _ => "g") (exportToCSV [] none)).errors =
      ["CSV file is empty or has no data rows"] ∧
    unnamedTask.name = none ∧
    (importFromCSV (fun _ => "g")
      (exportToCSV [unnamedTask] none)).isValid = true ∧
    (importFromCSV (fun _ => "g")
      (exportToCSV [unnamedTask] none)).tasks.map Task.name =
      [some "Task 1"] ∧
    emptyNameTask.name = some "" ∧
    (importFromCSV (fun _ => "g")
      (exportToCSV [emptyNameTask] none)).tasks.map Task.name =
      [some "Task 1"] ∧
    spacedNameTask.name = some " A" ∧
    (importFromCSV (fun _ => "g")
      (exportToCSV [spacedNameTask] none)).tasks.map Task.name =
      [some "A"] ∧
    (importFromCSV (fun _ => "g")
      (exportToCSV [quotedNameTask] none)).isValid = false ∧
    (importFromCSV (fun _ => "g")
      (exportToCSV [newlineNameTask] none)).isValid = false ∧
    (importFromCSV (fun _ => "g")
      (exportToCSV [crNameTask] none)).isValid = false ∧
    calculatePert thirdEstimate = some ⟨1/3, 0, 0⟩ ∧
    (importFromCSV (fun _ => "g")
      (exportToCSV [thirdTask] none)).isValid = false :=
  ⟨by with_unfolding_all rfl, by with_unfolding_all rfl, rfl,
    by with_unfolding_all rfl, by with_unfolding_all rfl, rfl,
    by with_unfolding_all rfl, rfl,
    by with_unfolding_all rfl,
    by with_unfolding_all rfl,
    by with_unfolding_all rfl,
    by with_unfolding_all rfl,
    by with_unfolding_all rfl,
    by with_unfolding_all rfl⟩

set_option maxRecDepth 10000 in
/-- C8 counterexample: in the exported row for a task with magnitude 3
the magnitude cells read `3` — the magnitudes go through `toString`,
not `toFixed(2)` — so not every numeric field has exactly 2 decimal
places. -/
theorem exportToCSV_two_decimals_counterexample :
    (tokenizeLine ((splitOnNl ((exportToCSV [flatTask] none).data)).getD 1
        [])).map stripQuotes =
      [("T").data, ("3").data, ("hours").data, ("3").data, ("hours").data,
       ("3").data, ("hours").data, ("3.00").data, ("0.00").data] ∧
    hasTwoDecimals (("3").data) = false :=
  ⟨by with_unfolding_all rfl, by rfl⟩

/-- C8 (amended): every data row consists of exactly 9 cells, each
individually double-quoted and joined by commas; the expected-duration
and standard-deviation cells are `toFixed(2)`-formatted, which always
has exactly 2 decimal places; the three magnitude cells use the
number's default string rendering. -/
theorem exportToCSV_row_format (tasks : List Task)
    (projectName : Option String) :
    (exportToCSV tasks projectName).data =
      csvPreamble projectName ++ joinWith ['\n']
        ((csvHeaders :: (enumFrom 0 tasks).map fun p => csvRow p.1 p.2).map
          fun row => joinWith [','] (row.map quoteCell)) ∧
    (∀ p ∈ enumFrom 0 tasks, (csvRow p.1 p.2).length = 9) ∧
    (∀ p ∈ enumFrom 0 tasks,
      (csvRow p.1 p.2).getD 7 [] = toFixed2 p.2.expectedDuration ∧
      (csvRow p.1 p.2).getD 8 [] = toFixed2 p.2.standardDeviation ∧
      (csvRow p.1 p.2).getD 1 [] = ratToChars p.2.estimate.optimistic.value ∧
      (csvRow p.1 p.2).getD 3 [] = ratToChars p.2.estimate.nominal.value ∧
      (csvRow p.1 p.2).getD 5 [] = ratToChars p.2.estimate.pessimistic.value) ∧
    (∀ q : ℚ, hasTwoDecimals (toFixed2 q) = true) := by
  refine ⟨rfl, ?_, ?_, toFixed2_hasTwoDecimals⟩
  · intro p _
    rfl
  · intro p _
    exact ⟨rfl, rfl, rfl, rfl, rfl⟩

/-- Witness for the amended C8 at a concrete task list. -/
theorem exportToCSV_row_format_witness :
    (∀ p ∈ enumFrom 0 [flatTask], (csvRow p.1 p.2).length = 9) ∧
    (∀ q : ℚ, hasTwoDecimals (toFixed2 q) = true) :=
  ⟨(exportToCSV_row_format [flatTask] none).2.1,
    (exportToCSV_row_format [flatTask] none).2.2.2⟩

set_option maxRecDepth 10000 in
/-- C9: with a project-name line present, the malformed data row is
line 4 of the original file (name line, blank line, header line
precede it), yet the error message reads "Row 2" — the reported row
number accounts only for the header, not for the skipped name and
blank lines. -/
theorem importFromCSV_row_number_bug :
    (importFromCSV (fun _ => "g") c9Input).errors =
      ["Row 2: Insufficient columns"] ∧
    (importFromCSV (fun _ => "g") c9Input).projectName = some "Demo" ∧
    (splitOnNl (trimChars c9Input.data)).length = 4 ∧
    (splitOnNl (trimChars c9Input.data)).getD 3 [] =
      ("\"A\",\"1\",\"hours\",\"2\",\"x\"").data :=
  ⟨by with_unfolding_all rfl, by with_unfolding_all rfl,
    by with_unfolding_all rfl, by with_unfolding_all rfl⟩

set_option maxRecDepth 10000 in
/-- C7: for both importers the result is valid exactly when the error
list is empty, and partial success is representable: concrete inputs
for each importer yield one imported task alongside an error. -/
theorem importResult_isValid_iff_no_errors :
    (∀ (genId : Nat → String) (s : String),
      (importFromCSV genId s).isValid = true ↔
        (importFromCSV genId s).errors = []) ∧
    (∀ (genId : Nat → String) (parsed : Option Json),
      (importFromJSON genId parsed).isValid = true ↔
        (importFromJSON genId parsed).errors = []) ∧
    ((importFromCSV (fun _ => "g") partialCsv).tasks.length = 1 ∧
      (importFromCSV (fun _ => "g") partialCsv).isValid = false) ∧
    ((importFromJSON (fun _ => "g") (some partialJson)).tasks.length = 1 ∧
      (importFromJSON (fun _ => "g") (some partialJson)).isValid = false) := by
  refine ⟨?_, ?_, ?_, ?_⟩
  · intro genId s
    rw [importFromCSV]
    split
    · simp
    · simp [List.isEmpty_iff]
  · intro genId parsed
    cases parsed with
    | none => simp [importFromJSON]
    | some j =>
      cases j with
      | null => simp [importFromJSON]
      | bool b =>
        simp only [importFromJSON]
        split_ifs <;> simp [List.isEmpty_iff]
      | num q =>
        simp only [importFromJSON]
        split_ifs <;> simp [List.isEmpty_iff]
      | str s =>
        simp only [importFromJSON]
        split_ifs <;> simp [List.isEmpty_iff]
      | arr items =>
        simp only [importFromJSON]
        split_ifs <;> simp [List.isEmpty_iff]
      | obj fields =>
        simp only [importFromJSON]
        split_ifs <;> simp [List.isEmpty_iff]
  · exact ⟨by with_unfolding_all rfl, by with_unfolding_all rfl⟩
  · exact ⟨by with_unfolding_all rfl, by with_unfolding_all rfl⟩

end PertEstimator
